import Mathlib

/-!
Verification development for the TaxTaxi HTS resolution engine
(`us_hts_search/usitc_mapping.py` and `us_hts_search/usitc_search.py`).

The Python code is shallowly embedded.  Remote rows are semi-structured
dictionaries; they are modelled as association lists over a small inductive
type `PyVal` of JSON-like Python values.  Operations that can raise a Python
exception on ill-typed values (for example calling `.strip()` on a truthy
non-string) are modelled in `Except`.  The two HTTP entry points
(`fetch_search` / `fetch_exportlist`) are network boundaries and are
modelled as oracle functions supplied as parameters; an oracle either
returns the parsed list of rows or an `APIError`, exactly the two observable
outcomes of those Python functions.
-/

set_option autoImplicit false

namespace TaxTaxi

/-- JSON-like Python values appearing in HTS rows.  `vbool` is kept separate
from `vint` even though Python's `bool` is an `int` subclass; the places
where that subclassing matters (`isinstance(value, (int, float))`) treat
`vbool` like a number, mirroring Python. -/
inductive PyVal where
  | vnone : PyVal
  | vstr (s : String) : PyVal
  | vint (n : Int) : PyVal
  | vfloat (q : Rat) : PyVal
  | vbool (b : Bool) : PyVal
  | vlist (items : List PyVal) : PyVal
  deriving Repr

mutual

/-- Boolean equality on `PyVal` (the derive handler does not support the
nested occurrence in `vlist`). -/
def pyValBeq : PyVal → PyVal → Bool
  | .vnone, .vnone => true
  | .vstr a, .vstr b => decide (a = b)
  | .vint a, .vint b => decide (a = b)
  | .vfloat a, .vfloat b => decide (a = b)
  | .vbool a, .vbool b => decide (a = b)
  | .vlist a, .vlist b => pyValListBeq a b
  | _, _ => false

/-- Boolean equality on lists of `PyVal`. -/
def pyValListBeq : List PyVal → List PyVal → Bool
  | [], [] => true
  | a :: as, b :: bs => pyValBeq a b && pyValListBeq as bs
  | _, _ => false

end

mutual

theorem pyValBeq_iff : ∀ a b : PyVal, pyValBeq a b = true ↔ a = b
  | .vnone, .vnone => by simp [pyValBeq]
  | .vstr a, .vstr b => by simp [pyValBeq]
  | .vint a, .vint b => by simp [pyValBeq]
  | .vfloat a, .vfloat b => by simp [pyValBeq]
  | .vbool a, .vbool b => by simp [pyValBeq]
  | .vlist a, .vlist b => by
      simp only [pyValBeq, PyVal.vlist.injEq]
      exact pyValListBeq_iff a b
  | .vnone, .vstr _ | .vnone, .vint _ | .vnone, .vfloat _ | .vnone, .vbool _
  | .vnone, .vlist _ | .vstr _, .vnone | .vstr _, .vint _ | .vstr _, .vfloat _
  | .vstr _, .vbool _ | .vstr _, .vlist _ | .vint _, .vnone | .vint _, .vstr _
  | .vint _, .vfloat _ | .vint _, .vbool _ | .vint _, .vlist _ | .vfloat _, .vnone
  | .vfloat _, .vstr _ | .vfloat _, .vint _ | .vfloat _, .vbool _ | .vfloat _, .vlist _
  | .vbool _, .vnone | .vbool _, .vstr _ | .vbool _, .vint _ | .vbool _, .vfloat _
  | .vbool _, .vlist _ | .vlist _, .vnone | .vlist _, .vstr _ | .vlist _, .vint _
  | .vlist _, .vfloat _ | .vlist _, .vbool _ => by simp [pyValBeq]

theorem pyValListBeq_iff : ∀ a b : List PyVal, pyValListBeq a b = true ↔ a = b
  | [], [] => by simp [pyValListBeq]
  | a :: as, b :: bs => by
      simp only [pyValListBeq, Bool.and_eq_true, List.cons.injEq]
      exact and_congr (pyValBeq_iff a b) (pyValListBeq_iff as bs)
  | [], _ :: _ => by simp [pyValListBeq]
  | _ :: _, [] => by simp [pyValListBeq]

end

instance : DecidableEq PyVal := fun a b =>
  decidable_of_iff (pyValBeq a b = true) (pyValBeq_iff a b)

/-- A Python dict with string keys, as the USITC rows are: an association
list, first binding of a key wins on lookup.  Construction never introduces
duplicate keys. -/
abbrev Row := List (String × PyVal)

/-- First-match association-list lookup (Python `dict` access). -/
def lookupKey {α : Type} : List (String × α) → String → Option α
  | [], _ => none
  | (k2, v) :: rest, k => if k = k2 then some v else lookupKey rest k

/-- Python `dict.get(key, default)`. -/
def dictGet (r : Row) (k : String) (d : PyVal) : PyVal :=
  (lookupKey r k).getD d

/-- Python `dict[key] = value`: replace in place if present (dicts keep the
original insertion position), append otherwise. -/
def dictSet (r : Row) (k : String) (v : PyVal) : Row :=
  if (lookupKey r k).isSome then
    r.map (fun p => if p.1 = k then (k, v) else p)
  else r ++ [(k, v)]

/-- The whitespace characters stripped by Python's `str.strip()` /
matched by `\s` for ASCII input. -/
def isPyWs (c : Char) : Bool :=
  c = ' ' || c = '\t' || c = '\n' || c = '\r' || c = Char.ofNat 11 || c = Char.ofNat 12

/-- Python `str.strip()` (ASCII whitespace model). -/
def pyStrip (s : String) : String :=
  ⟨((s.data.dropWhile isPyWs).reverse.dropWhile isPyWs).reverse⟩

/-- Python truthiness of a value. -/
def pyTruthy : PyVal → Bool
  | .vnone => false
  | .vstr s => decide (s ≠ "")
  | .vint n => decide (n ≠ 0)
  | .vfloat q => decide (q ≠ 0)
  | .vbool b => b
  | .vlist l => decide (l ≠ [])

/-- Truthiness of `str(value).strip()`.  `str` of `None`, a number, a bool
or a list never strips to the empty string, so only actual strings can be
blank. -/
def strNonblank : PyVal → Bool
  | .vstr s => decide (pyStrip s ≠ "")
  | _ => true

/-- Truthiness of the Python expression `value and str(value).strip()`,
the "non-blank" test used by `merge_resolved_view`, `to_compact_dict` and
`print_quantitative_result` for rate fields. -/
def truthyNonblank (v : PyVal) : Bool :=
  pyTruthy v && strNonblank v

/-- `_clean_text` applied to an arbitrary dict value, i.e. the expression
`(v or "").strip()`.  A falsy value is coerced to `""`; a truthy
non-string raises `AttributeError` on `.strip()`, modelled as `.error ()`. -/
def cleanTextVal : PyVal → Except Unit String
  | .vnone => .ok ""
  | .vstr s => .ok (pyStrip s)
  | v => if pyTruthy v then .error () else .ok ""

/-- `_clean_text` on an actual string argument. -/
def cleanText (s : String) : String := pyStrip s

/-! ## usitc_mapping.py: normalization and query classification -/

/-- `normalize_hts_input`: strip, remove spaces (`.replace(" ", "")`),
strip trailing dots (`.rstrip(".")`). -/
def normalize_hts_input (q : String) : String :=
  let q1 := (cleanText q).data.filter (fun c => c ≠ ' ')
  ⟨(q1.reverse.dropWhile (fun c => c = '.')).reverse⟩

/-- `is_hts_like`: the stripped input is non-empty and matches
`^[\d.\s]+$` (digits, dots and whitespace only; `\d` modelled as ASCII
digits). -/
def is_hts_like (q : String) : Bool :=
  let q1 := cleanText q
  decide (q1 ≠ "") && q1.data.all (fun c => c.isDigit || c = '.' || isPyWs c)

/-- `hts_digits_len`: number of digits after normalization. -/
def hts_digits_len (q : String) : Nat :=
  ((normalize_hts_input q).data.filter (fun c => c ≠ '.')).length

/-- `is_exact_hts_code`: the dot-stripped normalized input is all digits and
its length is 4, 6, 8 or 10. -/
def is_exact_hts_code (q : String) : Bool :=
  let qn := normalize_hts_input q
  let digits := qn.data.filter (fun c => c ≠ '.')
  (decide (digits ≠ []) && digits.all Char.isDigit) &&
    (decide (digits.length = 4) || decide (digits.length = 6) ||
     decide (digits.length = 8) || decide (digits.length = 10))

/-- `parse_hybrid_query`: match `^([\d.]+)\s+(.+)$` against the stripped
input.  The digit/dot class and `\s` are disjoint, so the greedy match is
the maximal leading digit/dot run, then the maximal whitespace run, then
the (non-empty) remainder.  (`.` of the regex is modelled as any
character; inputs containing `\n` are not exercised by the claims.)
The HTS part must be numeric after removing dots and the keyword part
non-empty, else `(None, None)`. -/
def parse_hybrid_query (q : String) : Option String × Option String :=
  let q1 := cleanText q
  let l := q1.data
  let g1 := l.takeWhile (fun c => c.isDigit || c = '.')
  let r1 := l.dropWhile (fun c => c.isDigit || c = '.')
  let ws := r1.takeWhile isPyWs
  let r2 := r1.dropWhile isPyWs
  if g1 ≠ [] ∧ ws ≠ [] ∧ r2 ≠ [] then
    let hts_part : String := ⟨g1⟩
    let keyword_part := pyStrip ⟨r2⟩
    let hpDigits := g1.filter (fun c => c ≠ '.')
    if (hpDigits ≠ [] ∧ hpDigits.all Char.isDigit) ∧ keyword_part ≠ "" then
      (some (normalize_hts_input hts_part), some keyword_part)
    else (none, none)
  else (none, none)

/-! ## usitc_mapping.py: range builder -/

/-- The local `format_hts` of `build_hts_range` (identical to
`format_hts_code` in usitc_search.py): insert dots in 4-2-2-2 groups,
truncating the format to the digit groups present. -/
def formatHtsDigits (d : List Char) : List Char :=
  if d.length ≥ 10 then
    d.take 4 ++ '.' :: ((d.drop 4).take 2 ++ '.' :: ((d.drop 6).take 2 ++ '.' :: (d.drop 8).take 2))
  else if d.length ≥ 8 then
    d.take 4 ++ '.' :: ((d.drop 4).take 2 ++ '.' :: (d.drop 6).take 2)
  else if d.length ≥ 6 then
    d.take 4 ++ '.' :: (d.drop 4).take 2
  else if d.length ≥ 4 then
    d.take 4
  else d

/-- `format_hts_code` from usitc_search.py (same body as the local helper
inside `build_hts_range`). -/
def format_hts_code (digits : String) : String :=
  ⟨formatHtsDigits digits.data⟩

/-- `build_hts_range`: pad the digits of the normalized prefix with `'0'`
(resp. `'9'`) to 10 digits and format both as dotted codes; a prefix that
already has at least 10 digits is returned unchanged as both bounds. -/
def build_hts_range (pfx : String) : String × String :=
  let p := normalize_hts_input pfx
  let digits := p.data.filter (fun c => c ≠ '.')
  if digits.length ≥ 10 then (p, p)
  else
    let remaining := 10 - digits.length
    let from_digits := digits ++ List.replicate remaining '0'
    let to_digits := digits ++ List.replicate remaining '9'
    (⟨formatHtsDigits from_digits⟩, ⟨formatHtsDigits to_digits⟩)

/-! ## usitc_mapping.py: retry-wrapped fetcher -/

/-- `APIError` (usitc_mapping.py). -/
structure APIError where
  message : String
  status_code : Option Nat := none
  retries_attempted : Nat := 0
  deriving Repr, DecidableEq

/-- Observable outcome of one `requests.get` attempt inside
`_request_with_retry`: a successful response (abstracted by an identifier),
or one of the `requests` exception classes.  `httpError` is the
`HTTPError` raised by `raise_for_status`, carrying the HTTP status of the
underlying `e.response` object (`none` when the response is absent) and
`str(e)`. -/
inductive ReqOutcome where
  | success (resp : Nat)
  | timeout
  | connError (msg : String)
  | httpError (status : Option Nat) (msg : String)
  | reqError (msg : String)
  deriving Repr, DecidableEq

/-- `MAX_RETRIES` (usitc_mapping.py). -/
def MAX_RETRIES : Nat := 3

/-- `REQUEST_TIMEOUT` (usitc_mapping.py). -/
def REQUEST_TIMEOUT : Nat := 30

/-- The status the handler computes:
`status_code = e.response.status_code if e.response else None`.
This is a truthiness test, and `requests.Response.__bool__` returns
`self.ok`, i.e. "status below 400".  So a response whose status is 400 or
above — the only kind `raise_for_status` raises for — is falsy and the
computed `status_code` is `None`. -/
def respStatusCode : Option Nat → Option Nat
  | some s => if s < 400 then some s else none
  | none => none

/-- Is this computed status terminal (4xx other than 429)?  Mirrors
`if status_code and 400 <= status_code < 500 and status_code != 429`.
Applied to `respStatusCode` it can never hold, so the terminal branch of
the source is dead code. -/
def terminalStatus : Option Nat → Bool
  | some s => decide (s ≠ 0) && decide (400 ≤ s) && decide (s < 500) && decide (s ≠ 429)
  | none => false

/-- The terminal-HTTP-error message `f"HTTP {status_code}: {str(e)}"`.
`terminalStatus` guarantees the status is present, so the default is never
used. -/
def httpTerminalMsg (st : Option Nat) (m : String) : String :=
  let s := st.getD 0
  s!"HTTP {s}: {m}"

/-- The loop body of `_request_with_retry`: `attempt` counts up from 0,
`remaining` counts the attempts still allowed, `last_error` is the last
stored error.  The `time.sleep` backoff between attempts is a real-time
effect with no observable value and is not modelled. -/
def requestLoop (outcomes : Nat → ReqOutcome) (timeout max_retries : Nat) :
    Nat → Nat → Option APIError → Except APIError Nat
  | _, 0, last_error =>
      .error (last_error.getD
        { message := "Unknown error after retries", retries_attempted := max_retries })
  | attempt, remaining + 1, _ =>
      match outcomes attempt with
      | .success r => .ok r
      | .timeout =>
          requestLoop outcomes timeout max_retries (attempt + 1) remaining
            (some { message := s!"Request timed out after {timeout}s",
                    retries_attempted := attempt + 1 })
      | .connError m =>
          requestLoop outcomes timeout max_retries (attempt + 1) remaining
            (some { message := s!"Connection error: {m}",
                    retries_attempted := attempt + 1 })
      | .httpError st m =>
          let status_code := respStatusCode st
          if terminalStatus status_code then
            .error { message := httpTerminalMsg status_code m,
                     status_code := status_code,
                     retries_attempted := attempt + 1 }
          else
            requestLoop outcomes timeout max_retries (attempt + 1) remaining
              (some { message := s!"HTTP error: {m}", status_code := status_code,
                      retries_attempted := attempt + 1 })
      | .reqError m =>
          requestLoop outcomes timeout max_retries (attempt + 1) remaining
            (some { message := s!"Request failed: {m}",
                    retries_attempted := attempt + 1 })

/-- `_request_with_retry` over a sequence of attempt outcomes. -/
def request_with_retry (outcomes : Nat → ReqOutcome) (max_retries timeout : Nat) :
    Except APIError Nat :=
  requestLoop outcomes timeout max_retries 0 max_retries none

/-! ## usitc_mapping.py: oracles for the two HTTP endpoints

`fetch_search` and `fetch_exportlist` wrap `_request_with_retry` plus JSON
parsing; their observable behaviour is "a list of rows, or an `APIError`"
(a non-list body is already converted to `[]` inside them).  They are
modelled as oracle functions with exactly that type. -/

/-- Behaviour of `fetch_search keyword`. -/
abbrev SearchOracle := String → Except APIError (List Row)

/-- Behaviour of `fetch_exportlist from_code to_code`. -/
abbrev ExportOracle := String → String → Except APIError (List Row)

/-- `INCLUDE_CONTEXT` (usitc_mapping.py). -/
def INCLUDE_CONTEXT : Bool := true

/-- `fetch_range_enumeration`: exportList over the range of a prefix. -/
def fetch_range_enumeration (fe : ExportOracle) (pfx : String) :
    Except APIError (List Row) :=
  let r := build_hts_range pfx
  fe r.1 r.2

/-! ## usitc_mapping.py: candidate extraction and filtering -/

/-- `MappingCandidate` (usitc_mapping.py). -/
structure MappingCandidate where
  htsno : String
  description : String
  deriving Repr, DecidableEq

/-- `LookupResult` (usitc_mapping.py). -/
structure LookupResult where
  mode : String
  query : String
  count : Nat
  candidates : List MappingCandidate := []
  context_rows : Option (List Row) := none
  error_message : Option String := none
  deriving Repr, DecidableEq

/-- `extract_candidates_from_items`: keep rows whose cleaned `htsno` and
`description` are both non-empty.  Cleaning a truthy non-string raises,
hence the `Except`. -/
def extract_candidates_from_items : List Row → Except Unit (List MappingCandidate)
  | [] => .ok []
  | item :: rest => do
    let code ← cleanTextVal (dictGet item "htsno" .vnone)
    let desc ← cleanTextVal (dictGet item "description" .vnone)
    let out ← extract_candidates_from_items rest
    if code ≠ "" ∧ desc ≠ "" then
      .ok (⟨code, desc⟩ :: out)
    else .ok out

/-- Worker for `dedupe_candidates`; the Python `seen` set is modelled as a
list used only through membership. -/
def dedupeGo : List MappingCandidate → List String → List MappingCandidate
  | [], _ => []
  | c :: rest, seen =>
    if c.htsno ∈ seen then dedupeGo rest seen
    else c :: dedupeGo rest (c.htsno :: seen)

/-- `dedupe_candidates`: first occurrence of each `htsno` wins. -/
def dedupe_candidates (cands : List MappingCandidate) : List MappingCandidate :=
  dedupeGo cands []

/-- `filter_by_hts_prefix`: keep candidates whose code starts with the
normalized prefix, either as written or with dots removed on both sides. -/
def filter_by_hts_prefix (cands : List MappingCandidate) (pfx : String) :
    List MappingCandidate :=
  let p := normalize_hts_input pfx
  if p = "" then cands
  else
    let prefixDigits := p.data.filter (fun c => c ≠ '.')
    cands.filter (fun c =>
      p.data.isPrefixOf c.htsno.data ||
      prefixDigits.isPrefixOf (c.htsno.data.filter (fun ch => ch ≠ '.')))

/-- ASCII lower-casing of one character (model of `str.lower()` for the
ASCII inputs the code handles). -/
def lowerChar (c : Char) : Char :=
  if 'A' ≤ c ∧ c ≤ 'Z' then Char.ofNat (c.toNat + 32) else c

/-- `str.lower()`. -/
def lowerStr (s : String) : String := ⟨s.data.map lowerChar⟩

/-- Python `needle in hay` on strings: `needle` occurs as a contiguous
substring of `hay`. -/
def containsSub (needle : List Char) : List Char → Bool
  | [] => needle.isEmpty
  | c :: rest => needle.isPrefixOf (c :: rest) || containsSub needle rest

/-- Worker for `str.split()` (split on whitespace runs, no empty tokens). -/
def splitWsAux : List Char → List Char → List String
  | [], acc => if acc = [] then [] else [⟨acc.reverse⟩]
  | c :: rest, acc =>
    if isPyWs c then
      if acc = [] then splitWsAux rest []
      else ⟨acc.reverse⟩ :: splitWsAux rest []
    else splitWsAux rest (c :: acc)

/-- Python `str.split()` with no argument. -/
def pySplitWs (s : String) : List String := splitWsAux s.data []

/-- `filter_by_keyword`: every whitespace-separated token of the lowered
keyword must occur in the lowered description (AND semantics); an empty
keyword keeps everything. -/
def filter_by_keyword (cands : List MappingCandidate) (keyword : String) :
    List MappingCandidate :=
  let kw := pyStrip (lowerStr keyword)
  if kw = "" then cands
  else
    let keywords := pySplitWs kw
    cands.filter (fun c =>
      let descLower := lowerStr c.description
      keywords.all (fun k => containsSub k.data descLower.data))

/-! ## usitc_mapping.py: lookup entry points -/

/-- The error-mode `LookupResult` built in each `except APIError` handler:
message `f"{e.message} (retries: {e.retries_attempted})"`. -/
def apiLookupError (q : String) (e : APIError) : LookupResult :=
  let m := e.message
  let ra := e.retries_attempted
  { mode := "error", query := q, count := 0,
    error_message := some s!"{m} (retries: {ra})" }

/-- The inner context `try` of `_lookup_hts` in search mode: range
enumeration, falling back to an exact exportList for exact codes, `None`
when everything fails (non-fatal). -/
def lookupHtsContextFallback (fe : ExportOracle) (qn : String) :
    Option (List Row) :=
  match fetch_range_enumeration fe qn with
  | .ok raw => some raw
  | .error _ =>
    if is_exact_hts_code qn then
      match fe qn qn with
      | .ok raw => some raw
      | .error _ => none
    else none

/-- The common tail of `_lookup_hts`: dedupe, upgrade the mode for exact
codes, truncate to `max_results` while `count` keeps the full deduped
length. -/
def finishLookupHts (qn mode0 : String) (cands0 : List MappingCandidate)
    (context : Option (List Row)) (max_results : Nat) : LookupResult :=
  let cands := dedupe_candidates cands0
  let mode := if is_exact_hts_code qn then "exact_hts" else mode0
  { mode := mode, query := qn, count := cands.length,
    candidates := cands.take max_results, context_rows := context }

/-- `_lookup_hts` (usitc_mapping.py). -/
def lookup_hts (fs : SearchOracle) (fe : ExportOracle) (query : String)
    (max_results : Nat) (use_range : Bool) : Except Unit LookupResult :=
  let qn := normalize_hts_input query
  if use_range then
    match fetch_range_enumeration fe qn with
    | .error e => .ok (apiLookupError qn e)
    | .ok raw =>
        match extract_candidates_from_items raw with
        | .error e => .error e
        | .ok cands0 =>
          let cands := filter_by_hts_prefix cands0 qn
          let context := if INCLUDE_CONTEXT then some raw else none
          .ok (finishLookupHts qn "hts_range" cands context max_results)
  else
    match fs qn with
    | .error e => .ok (apiLookupError qn e)
    | .ok raw =>
        match extract_candidates_from_items raw with
        | .error e => .error e
        | .ok cands0 =>
          let cands := filter_by_hts_prefix cands0 qn
          let context := if INCLUDE_CONTEXT then lookupHtsContextFallback fe qn
            else none
          .ok (finishLookupHts qn "hts_prefix" cands context max_results)

/-- `_lookup_keyword` (usitc_mapping.py). -/
def lookup_keyword (fs : SearchOracle) (query : String) (max_results : Nat) :
    Except Unit LookupResult :=
  match fs query with
  | .error e => .ok (apiLookupError query e)
  | .ok raw =>
      match extract_candidates_from_items raw with
      | .error e => .error e
      | .ok cands0 =>
        let cands := dedupe_candidates cands0
        .ok { mode := "keyword", query := query, count := cands.length,
              candidates := cands.take max_results }

/-- A one-character string holding the ASCII apostrophe (used in the
hybrid query rendering `f"{hts_prefix} + '{keyword}'"`). -/
def sq : String := String.singleton (Char.ofNat 39)

/-- The common tail of `_lookup_hybrid`: keyword filter, dedupe,
truncate. -/
def finishLookupHybrid (htsPfx keyword : String) (cands0 : List MappingCandidate)
    (context : Option (List Row)) (max_results : Nat) : LookupResult :=
  let cands := filter_by_keyword cands0 keyword
  let cands := dedupe_candidates cands
  { mode := "hybrid", query := s!"{htsPfx} + {sq}{keyword}{sq}",
    count := cands.length, candidates := cands.take max_results,
    context_rows := context }

/-- `_lookup_hybrid` (usitc_mapping.py). -/
def lookup_hybrid (fs : SearchOracle) (fe : ExportOracle) (htsPfx keyword : String)
    (max_results : Nat) (use_range : Bool) : Except Unit LookupResult :=
  let errQ := s!"{htsPfx} {keyword}"
  if use_range then
    match fetch_range_enumeration fe htsPfx with
    | .error e => .ok (apiLookupError errQ e)
    | .ok raw =>
        match extract_candidates_from_items raw with
        | .error e => .error e
        | .ok cands0 =>
          let cands := filter_by_hts_prefix cands0 htsPfx
          let context := if INCLUDE_CONTEXT then some raw else none
          .ok (finishLookupHybrid htsPfx keyword cands context max_results)
  else
    match fs htsPfx with
    | .error e => .ok (apiLookupError errQ e)
    | .ok raw =>
        match extract_candidates_from_items raw with
        | .error e => .error e
        | .ok cands0 =>
          let cands := filter_by_hts_prefix cands0 htsPfx
          let context := if INCLUDE_CONTEXT then
              (match fetch_range_enumeration fe htsPfx with
               | .ok r => some r
               | .error _ => none)
            else none
          .ok (finishLookupHybrid htsPfx keyword cands context max_results)

/-- `mapping_lookup` (usitc_mapping.py): classify the cleaned query as
empty / hybrid / code-like / keyword and dispatch. -/
def mapping_lookup (fs : SearchOracle) (fe : ExportOracle) (query : String)
    (max_results : Nat) (use_range : Bool) : Except Unit LookupResult :=
  let q := cleanText query
  if q = "" then .ok { mode := "empty", query := "", count := 0 }
  else
    let nonHybrid : Except Unit LookupResult :=
      if is_hts_like q then lookup_hts fs fe q max_results use_range
      else lookup_keyword fs q max_results
    match parse_hybrid_query q with
    | (some a, some b) =>
        if a ≠ "" ∧ b ≠ "" then lookup_hybrid fs fe a b max_results use_range
        else nonHybrid
    | _ => nonHybrid

/-! ## usitc_search.py: numeric parsing helpers -/

/-- Value of a digit string. -/
def digitsVal (l : List Char) : Nat :=
  l.foldl (fun a c => a * 10 + (c.toNat - 48)) 0

/-- Optional leading sign. -/
def splitSign : List Char → Bool × List Char
  | '-' :: rest => (true, rest)
  | '+' :: rest => (false, rest)
  | l => (false, l)

/-- Model of Python `float(s)` on an already-stripped string:
`[sign] (digits [. digits] | . digits) [(e|E) [sign] digits]`.
(`inf`/`nan` spellings and digit-group underscores are not modelled; no
value flowing through the claims uses them.)  Returns the exact rational
value. -/
def floatParse? (l0 : List Char) : Option Rat :=
  let sgn := splitSign l0
  let neg := sgn.1
  let l1 := sgn.2
  let ip := l1.takeWhile Char.isDigit
  let r1 := l1.dropWhile Char.isDigit
  let hasDot : Bool := match r1 with
    | '.' :: _ => true
    | _ => false
  let afterDot := match r1 with
    | '.' :: r => r
    | _ => r1
  let fp := if hasDot then afterDot.takeWhile Char.isDigit else []
  let r2 := if hasDot then afterDot.dropWhile Char.isDigit else r1
  if ip = [] ∧ fp = [] then none
  else
    let mant : Rat := (digitsVal ip : Rat) + (digitsVal fp : Rat) / ((10 : Rat) ^ fp.length)
    match r2 with
    | [] => some (if neg then -mant else mant)
    | e :: r3 =>
      if e = 'e' ∨ e = 'E' then
        let esgn := splitSign r3
        let ed := esgn.2.takeWhile Char.isDigit
        let r5 := esgn.2.dropWhile Char.isDigit
        if ed = [] ∨ r5 ≠ [] then none
        else
          let ev := digitsVal ed
          let scaled := if esgn.1 then mant / (10 : Rat) ^ ev else mant * (10 : Rat) ^ ev
          some (if neg then -scaled else scaled)
      else none

/-- Model of Python `int(s)`: optional sign followed by digits. -/
def intParse? (l : List Char) : Option Int :=
  let sgn := splitSign l
  if sgn.2 ≠ [] ∧ sgn.2.all Char.isDigit then
    let v : Int := digitsVal sgn.2
    some (if sgn.1 then -v else v)
  else none

/-- `value.replace(",", "").replace("%", "").strip()`. -/
def stripClean (s : String) : String :=
  pyStrip ⟨s.data.filter (fun c => c ≠ ',' ∧ c ≠ '%')⟩

/-- `is_numeric_value` (usitc_search.py).  `vbool` is numeric because
Python's `bool` is an `int` subclass and `isinstance(value, (int, float))`
holds for it. -/
def is_numeric_value : PyVal → Bool
  | .vint _ => true
  | .vfloat _ => true
  | .vbool _ => true
  | .vstr s => (floatParse? (stripClean s).data).isSome
  | _ => false

/-! ## usitc_search.py: quantitative field extraction -/

/-- `QuantitativeDetail` (usitc_search.py). -/
structure QuantitativeDetail where
  field_name : String
  value : PyVal
  data_type : String
  deriving Repr, DecidableEq

/-- The hardcoded priority fields of `extract_quantitative_fields`. -/
def priority_fields : List String :=
  ["general", "special", "other", "quotaQuantity", "units", "footnotes"]

/-- The substring keywords of `extract_quantitative_fields`. -/
def quantitative_keywords : List String :=
  ["rate", "quantity", "duties", "duty", "quota", "unit"]

/-- `numeric_value = float(cleaned) if "." in cleaned else int(cleaned)`,
as an `Option` (`none` models the `ValueError`). -/
def parsedNumeric (s : String) : Option PyVal :=
  let cleaned := stripClean s
  if '.' ∈ cleaned.data then (floatParse? cleaned.data).map .vfloat
  else (intParse? cleaned.data).map .vint

/-- One iteration of the `extract_quantitative_fields` loop on a
`(key, value)` item. -/
def extractOne (key : String) (value : PyVal) : Option QuantitativeDetail :=
  if value = .vnone then
    if key ∈ priority_fields then some ⟨key, .vnone, "null"⟩ else none
  else if key ∈ priority_fields then
    match value with
    | .vlist l => some ⟨key, .vlist l, "list"⟩
    | .vint n => some ⟨key, .vint n, "number"⟩
    | .vfloat q => some ⟨key, .vfloat q, "number"⟩
    | .vbool b => some ⟨key, .vbool b, "number"⟩
    | .vstr s =>
      if pyStrip s ≠ "" then
        if is_numeric_value (.vstr s) then
          match parsedNumeric s with
          | some nv => some ⟨key, nv, "number"⟩
          | none => some ⟨key, .vstr s, "string"⟩
        else some ⟨key, .vstr s, "string"⟩
      else none
    | .vnone => none
  else if quantitative_keywords.any (fun kw => containsSub kw.data (lowerStr key).data) then
    if is_numeric_value value then
      match value with
      | .vstr s => some ⟨key, (parsedNumeric s).getD (.vstr s), "number"⟩
      | v => some ⟨key, v, "number"⟩
    else
      match value with
      | .vlist l => some ⟨key, .vlist l, "list"⟩
      | _ => none
  else none

/-- `extract_quantitative_fields` (usitc_search.py): walk the items of the
view in insertion order. -/
def extract_quantitative_fields (data : Row) : List QuantitativeDetail :=
  data.filterMap (fun p => extractOne p.1 p.2)

/-! ## usitc_search.py: ancestors, effective duty line, merged view -/

/-- `get_ancestor_codes`: 8-, 6- and 4-digit truncations (re-formatted
with dots), deepest first, for the levels the code actually reaches. -/
def get_ancestor_codes (hts_code : String) : List String :=
  let code_digits := hts_code.data.filter (fun c => c ≠ '.')
  (if code_digits.length ≥ 10 then [(⟨formatHtsDigits (code_digits.take 8)⟩ : String)] else []) ++
  (if code_digits.length ≥ 8 then [(⟨formatHtsDigits (code_digits.take 6)⟩ : String)] else []) ++
  (if code_digits.length ≥ 6 then [(⟨formatHtsDigits (code_digits.take 4)⟩ : String)] else [])

/-- First phase of `resolve_effective_duty_line`: seed the candidate list
and fallback chain from the requested line (`if requested_line:` makes an
empty dict behave like `None`). -/
def startCand : Option Row → Except Unit (List Row × List String)
  | none => .ok ([], [])
  | some rl =>
    if rl = [] then .ok ([], [])
    else
      match cleanTextVal (dictGet rl "htsno" (.vstr "")) with
      | .error e => .error e
      | .ok code => if code ≠ "" then .ok ([rl], [code]) else .ok ([], [])

/-- Second phase of `resolve_effective_duty_line`: append each ancestor
whose cleaned code is non-empty and not already in the chain. -/
def addAncestors : List Row → List Row → List String → Except Unit (List Row × List String)
  | [], cands, chain => .ok (cands, chain)
  | item :: rest, cands, chain =>
    match cleanTextVal (dictGet item "htsno" (.vstr "")) with
    | .error e => .error e
    | .ok code =>
      if code ≠ "" ∧ code ∉ chain then
        addAncestors rest (cands ++ [item]) (chain ++ [code])
      else addAncestors rest cands chain

/-- The duty-rate test
`any((item.get(field) or "").strip() for field in ("general", "special", "other"))`.
The generator is lazy: later fields are not evaluated once one is
non-blank, which the nesting mirrors. -/
def hasDutyRate (item : Row) : Except Unit Bool :=
  match cleanTextVal (dictGet item "general" .vnone) with
  | .error e => .error e
  | .ok g =>
    if g ≠ "" then .ok true
    else
      match cleanTextVal (dictGet item "special" .vnone) with
      | .error e => .error e
      | .ok s =>
        if s ≠ "" then .ok true
        else
          match cleanTextVal (dictGet item "other" .vnone) with
          | .error e => .error e
          | .ok o => if o ≠ "" then .ok true else .ok false

/-- Final phase of `resolve_effective_duty_line`: first candidate carrying
any duty rate. -/
def findDutyLine : List Row → Except Unit (Option Row)
  | [] => .ok none
  | item :: rest =>
    match hasDutyRate item with
    | .error e => .error e
    | .ok true => .ok (some item)
    | .ok false => findDutyLine rest

/-- `resolve_effective_duty_line` (usitc_search.py).  `target_hts` is not
used by the Python body either. -/
def resolve_effective_duty_line (requested_line : Option Row)
    (ancestor_lines : List Row) (target_hts : String) :
    Except Unit (Option Row × List String) :=
  match startCand requested_line with
  | .error e => .error e
  | .ok (cands, chain) =>
    match addAncestors ancestor_lines cands chain with
    | .error e => .error e
    | .ok (cands2, chain2) =>
      match findDutyLine cands2 with
      | .error e => .error e
      | .ok line => .ok (line, chain2)

/-- One rate-field step of `merge_resolved_view`. -/
def mergeOne (e resolved : Row) (f : String) : Row :=
  let value := dictGet e f .vnone
  if truthyNonblank value then dictSet resolved f value else resolved

/-- `merge_resolved_view` (usitc_search.py): copy of the requested row,
then `general`/`special`/`other` overridden from the effective duty line
when non-blank there.  (`if effective_duty_line:` on an empty dict skips
the loop in Python; `mergeOne` on an empty dict changes nothing, the same
result.) -/
def merge_resolved_view (requested_line effective_duty_line : Option Row) : Row :=
  let resolved : Row := match requested_line with
    | some r => r
    | none => []
  match effective_duty_line with
  | none => resolved
  | some e => mergeOne e (mergeOne e (mergeOne e resolved "general") "special") "other"

/-! ## usitc_search.py: fetching a single row and the search pipeline -/

/-- Exceptions inside `search_hts_quantitative_details`: an `APIError`
(handled by `except APIError`) or any other exception such as the
`AttributeError` from `.strip()` on a non-string (handled by
`except Exception`). -/
inductive SErr where
  | api (e : APIError)
  | other
  deriving Repr, DecidableEq

/-- First loop of `fetch_hts_row`: exact code match. -/
def findExactRow : List Row → String → Except SErr (Option Row)
  | [], _ => .ok none
  | item :: rest, code0 =>
    match cleanTextVal (dictGet item "htsno" (.vstr "")) with
    | .error _ => .error .other
    | .ok code => if code = code0 then .ok (some item) else findExactRow rest code0

/-- Second loop of `fetch_hts_row`: first row with any code. -/
def findRowWithCode : List Row → Except SErr (Option Row)
  | [] => .ok none
  | item :: rest =>
    match cleanTextVal (dictGet item "htsno" (.vstr "")) with
    | .error _ => .error .other
    | .ok code => if code ≠ "" then .ok (some item) else findRowWithCode rest

/-- `fetch_hts_row` (usitc_search.py): exportList with `from = to = code`.
An `APIError` from the fetch is swallowed (`except APIError: return None`);
exceptions raised while cleaning row fields are not caught here. -/
def fetch_hts_row (fe : ExportOracle) (hts_code : String) : Except SErr (Option Row) :=
  match fe hts_code hts_code with
  | .error _ => .ok none
  | .ok data =>
    if data = [] then .ok none
    else
      match findExactRow data hts_code with
      | .error e => .error e
      | .ok (some item) => .ok (some item)
      | .ok none =>
        match findRowWithCode data with
        | .error e => .error e
        | .ok (some item) => .ok (some item)
        | .ok none => .ok data.head?

/-- `HTSQuantitativeResult` (usitc_search.py). -/
structure HTSQuantitativeResult where
  hts_code : String
  requested_line : Option Row := none
  effective_duty_line : Option Row := none
  effective_hts_code : Option String := none
  resolved_view : Row := []
  quantitative_fields : List QuantitativeDetail := []
  hierarchical_context : List Row := []
  fallback_chain : List String := []
  error_message : Option String := none
  deriving Repr, DecidableEq

/-- The ancestor-fetch loop of `search_hts_quantitative_details`: rows that
come back truthy (non-`None`, non-empty) are collected, gaps are skipped. -/
def fetchAncestorLines (fe : ExportOracle) : List String → Except SErr (List Row)
  | [] => .ok []
  | code :: rest => do
    let row? ← fetch_hts_row fe code
    let tail ← fetchAncestorLines fe rest
    match row? with
    | some r => if r ≠ [] then .ok (r :: tail) else .ok tail
    | none => .ok tail

/-- Body of the `try` block of `search_hts_quantitative_details`. -/
def searchBody (fe : ExportOracle) (normalized_code : String) :
    Except SErr HTSQuantitativeResult := do
  let requested? ← fetch_hts_row fe normalized_code
  match requested? with
  | none =>
      .ok { hts_code := normalized_code,
            error_message := some s!"Exact HTS code not found: {normalized_code}" }
  | some requested_line =>
    if requested_line = [] then
      .ok { hts_code := normalized_code,
            error_message := some s!"Exact HTS code not found: {normalized_code}" }
    else
      match cleanTextVal (dictGet requested_line "htsno" (.vstr "")) with
      | .error _ => .error .other
      | .ok requested_code =>
        if requested_code ≠ normalized_code then
          .ok { hts_code := normalized_code,
                error_message :=
                  some s!"Exact HTS code not found: {normalized_code} (got {requested_code} instead)" }
        else do
          let ancestor_codes := get_ancestor_codes normalized_code
          let ancestor_lines ← fetchAncestorLines fe ancestor_codes
          match resolve_effective_duty_line (some requested_line) ancestor_lines
              normalized_code with
          | .error _ => .error .other
          | .ok (effective_duty_line, fallback_chain) => do
            let effective_hts_code ← (match effective_duty_line with
              | some e2 =>
                if e2 = [] then pure (none : Option String)
                else
                  match cleanTextVal (dictGet e2 "htsno" (.vstr "")) with
                  | .error _ => Except.error SErr.other
                  | .ok c => pure (some c)
              | none => pure (none : Option String))
            let resolved_view := merge_resolved_view (some requested_line) effective_duty_line
            let quantitative_fields := extract_quantitative_fields resolved_view
            .ok { hts_code := normalized_code,
                  requested_line := some requested_line,
                  effective_duty_line := effective_duty_line,
                  effective_hts_code := effective_hts_code,
                  resolved_view := resolved_view,
                  quantitative_fields := quantitative_fields,
                  hierarchical_context := requested_line :: ancestor_lines,
                  fallback_chain := fallback_chain }

/-- `search_hts_quantitative_details` (usitc_search.py).  The generic
`except Exception` message interpolates the exception text, which has no
model; the fixed marker string stands for it. -/
def search_hts_quantitative_details (fe : ExportOracle) (hts_code : String) :
    HTSQuantitativeResult :=
  let normalized_code := normalize_hts_input hts_code
  if normalized_code = "" then
    { hts_code := hts_code,
      error_message := some "Invalid HTS code: empty or invalid format" }
  else
    match searchBody fe normalized_code with
    | .ok r => r
    | .error (.api e) =>
        let m := e.message
        let ra := e.retries_attempted
        { hts_code := normalized_code,
          error_message := some s!"API error: {m} (retries: {ra})" }
    | .error .other =>
        { hts_code := normalized_code,
          error_message := some "Unexpected error" }

/-! ## usitc_search.py: JSON result store

The on-disk JSON file is modelled as the in-memory mapping it serializes:
an association list from HTS code to compacted row.  `load_stored_results`
is then the identity on the store, and a successful `json.dump` is
assumed (the `IOError` path only logs and returns `False`). -/

/-- The store underlying `hts_search_results.json`. -/
abbrev Store := List (String × Row)

/-- Optional string as a stored value. -/
def optStrVal : Option String → PyVal
  | some s => .vstr s
  | none => .vnone

/-- The rate/units/footnotes/quota/additionalDuties section of
`to_compact_dict`, in source order.  Every key written is fresh, so the
successive dict insertions are appends. -/
def compactRatesPart (view : Row) : Row :=
  (let g := dictGet view "general" .vnone
   if truthyNonblank g then [("general", g)] else []) ++
  (let s := dictGet view "special" .vnone
   if truthyNonblank s then [("special", s)] else []) ++
  (let o := dictGet view "other" .vnone
   if truthyNonblank o then [("other", o)] else []) ++
  (let units := dictGet view "units" .vnone
   if pyTruthy units then [("units", units)] else []) ++
  (let fns := dictGet view "footnotes" .vnone
   if pyTruthy fns then [("footnotes", fns)] else []) ++
  (let qd := dictGet view "quotaQuantity" .vnone
   if qd ≠ .vnone then [("quotaQuantity", qd)] else []) ++
  (let ad := dictGet view "additionalDuties" .vnone
   if ad ≠ .vnone then [("additionalDuties", ad)] else [])

/-- `HTSQuantitativeResult.to_compact_dict`.  Cleaning the description of
the requested line can raise on a truthy non-string, hence the `Except`. -/
def compactDescClean (r : HTSQuantitativeResult) : Except Unit String :=
  match r.requested_line with
  | some rl =>
    if rl ≠ [] then cleanTextVal (dictGet rl "description" (.vstr ""))
    else Except.ok ""
  | none => Except.ok ""

def to_compact_dict (r : HTSQuantitativeResult) : Except Unit Row :=
  match compactDescClean r with
  | .error e => .error e
  | .ok desc =>
    .ok ([("hts_code", PyVal.vstr r.hts_code),
          ("effective_hts_code", optStrVal r.effective_hts_code),
          ("fallback_chain", PyVal.vlist (r.fallback_chain.map PyVal.vstr))] ++
         (if desc ≠ "" then [("description", PyVal.vstr desc)] else []) ++
         (if r.resolved_view ≠ [] then compactRatesPart r.resolved_view else []))

/-- `save_result_to_json` (usitc_search.py): never stores error results,
never overwrites an existing code; returns whether a new entry was
written, with the updated store. -/
def save_result_to_json (result : HTSQuantitativeResult) (store : Store) :
    Except Unit (Bool × Store) :=
  if result.error_message.isSome then .ok (false, store)
  else if (lookupKey store result.hts_code).isSome then .ok (false, store)
  else
    match to_compact_dict result with
    | .error e => .error e
    | .ok cd => .ok (true, store ++ [(result.hts_code, cd)])

/-- The one-field-if-present entries used when rebuilding a view from a
compact record. -/
def optEntry (sd : Row) (f : String) : Row :=
  match lookupKey sd f with
  | some v => [(f, v)]
  | none => []

/-- The `resolved_view` rebuilt by `get_stored_result`: the seven known
fields that are present in the stored record, in the source's order. -/
def rebuildView (sd : Row) : Row :=
  optEntry sd "general" ++ optEntry sd "special" ++ optEntry sd "other" ++
  optEntry sd "units" ++ optEntry sd "footnotes" ++ optEntry sd "quotaQuantity" ++
  optEntry sd "additionalDuties"

/-- Project a stored string value. -/
def pyStrOf : PyVal → Option String
  | .vstr s => some s
  | _ => none

/-- The reconstruction inside `get_stored_result`'s `try`.  A missing
`hts_code` key raises (`KeyError`); entries written by `save_result_to_json`
always hold a string there, which the typed `hts_code` field requires. -/
def rebuildStored (sd : Row) : Except Unit HTSQuantitativeResult :=
  let resolved_view := rebuildView sd
  match lookupKey sd "hts_code" with
  | none => .error ()
  | some hcv =>
  match pyStrOf hcv with
  | none => .error ()
  | some hc =>
  let requested_line : Option Row :=
    match lookupKey sd "description" with
    | some dv => some [("description", dv), ("htsno", PyVal.vstr hc)]
    | none => none
  let effective_duty_line : Option Row :=
    if (lookupKey sd "general").isSome ∨ (lookupKey sd "special").isSome ∨
        (lookupKey sd "other").isSome then
      some (optEntry sd "general" ++ optEntry sd "special" ++ optEntry sd "other" ++
            (match lookupKey sd "effective_hts_code" with
             | some v => [("htsno", v)]
             | none => []))
    else none
  let effective_hts_code : Option String :=
    match lookupKey sd "effective_hts_code" with
    | some (.vstr s) => some s
    | _ => none
  let fallback_chain : List String :=
    match lookupKey sd "fallback_chain" with
    | some (.vlist l) => l.filterMap pyStrOf
    | _ => []
  .ok { hts_code := hc, requested_line := requested_line,
        effective_duty_line := effective_duty_line,
        effective_hts_code := effective_hts_code,
        resolved_view := resolved_view,
        quantitative_fields := extract_quantitative_fields resolved_view,
        hierarchical_context := [], fallback_chain := fallback_chain }

/-- `get_stored_result` (usitc_search.py): reconstruct a minimal result
from the compact record; any reconstruction failure is caught and yields
`None`. -/
def get_stored_result (hts_code : String) (store : Store) :
    Option HTSQuantitativeResult :=
  match lookupKey store hts_code with
  | none => none
  | some sd =>
    match rebuildStored sd with
    | .ok r => some r
    | .error _ => none

/-! ## Lexicographic string order

The spec's range property compares dotted code strings lexicographically;
`lexLe` is standard lexicographic order on the character sequences. -/

/-- Lexicographic (weak) order on character lists. -/
def lexLe : List Char → List Char → Bool
  | [], _ => true
  | _ :: _, [] => false
  | a :: as, b :: bs => if a < b then true else if a = b then lexLe as bs else false

/-- Predicate for values that are a string or `None` (the typed shape the
spec assumes for rate and code fields). -/
def isStrOrNone : PyVal → Bool
  | .vnone => true
  | .vstr _ => true
  | _ => false

/-- A row whose `htsno`, `general`, `special` and `other` fields (with the
defaults the resolver uses) are strings or absent/`None`. -/
def goodRow (r : Row) : Bool :=
  isStrOrNone (dictGet r "htsno" (.vstr "")) &&
  isStrOrNone (dictGet r "general" .vnone) &&
  isStrOrNone (dictGet r "special" .vnone) &&
  isStrOrNone (dictGet r "other" .vnone)

/-! ## Concrete instances used by witnesses and counterexamples -/

/-- A search oracle whose every call returns an empty row list. -/
def emptySearchO : SearchOracle := fun _ => .ok []

/-- An exportList oracle whose every call returns an empty row list. -/
def emptyExportO : ExportOracle := fun _ _ => .ok []

/-- An exportList oracle whose every call fails with a timeout `APIError`
after exhausting the 3 attempts. -/
def timeoutExportO : ExportOracle := fun _ _ =>
  .error { message := "Request timed out after 30s", retries_attempted := 3 }

/-- Attempt outcomes: two timeouts, then success. -/
def outcomesTTS : Nat → ReqOutcome := fun i =>
  if i = 0 ∨ i = 1 then .timeout else .success 7

/-- Attempt outcomes: always timeout. -/
def outcomesAllT : Nat → ReqOutcome := fun _ => .timeout

/-- Attempt outcomes: always HTTP 404. -/
def outcomes404 : Nat → ReqOutcome := fun _ => .httpError (some 404) "not found"

/-- Attempt outcomes: HTTP 429 then success. -/
def outcomes429S : Nat → ReqOutcome := fun i =>
  if i = 0 then .httpError (some 429) "rate limited" else .success 5

/-- Attempt outcomes: HTTP 503 then success. -/
def outcomes503S : Nat → ReqOutcome := fun i =>
  if i = 0 then .httpError (some 503) "unavailable" else .success 9

/-- A 10-digit row with blank rates. -/
def wRow10 : Row :=
  [("htsno", .vstr "0901.21.00.00"), ("general", .vstr ""),
   ("special", .vstr ""), ("other", .vstr "")]

/-- An 8-digit ancestor row with blank rates. -/
def wRow8 : Row :=
  [("htsno", .vstr "0901.21.00"), ("general", .vstr ""),
   ("special", .vstr ""), ("other", .vstr "")]

/-- A 6-digit ancestor row with blank rates. -/
def wRow6 : Row :=
  [("htsno", .vstr "0901.21"), ("general", .vstr ""),
   ("special", .vstr ""), ("other", .vstr "")]

/-- The 4-digit ancestor row carrying the only non-blank general rate. -/
def wRow4 : Row :=
  [("htsno", .vstr "0901"), ("general", .vstr "Free")]

/-- A row whose `htsno` holds a truthy non-string while all rate fields
are absent. -/
def badHtsnoRow : Row := [("htsno", PyVal.vint 5)]

/-- A well-typed row used by the totality witness. -/
def c10GoodRow : Row := [("htsno", .vstr "0901"), ("general", .vstr "Free")]

/-- A successful resolution result used by the cache round-trip witness. -/
def wResult : HTSQuantitativeResult :=
  { hts_code := "0901.21.00.00",
    requested_line := some [("htsno", .vstr "0901.21.00.00"),
                            ("description", .vstr "Coffee, roasted, not decaf")],
    effective_duty_line := some wRow4,
    effective_hts_code := some "0901",
    resolved_view := [("htsno", .vstr "0901.21.00.00"),
                      ("general", .vstr "Free"),
                      ("units", .vlist [.vstr "kg"])],
    quantitative_fields := [],
    hierarchical_context := [],
    fallback_chain := ["0901.21.00.00", "0901"],
    error_message := none }

/-- The compact record `to_compact_dict` produces for `wResult`. -/
def wCompact : Row :=
  [("hts_code", .vstr "0901.21.00.00"),
   ("effective_hts_code", .vstr "0901"),
   ("fallback_chain", .vlist [.vstr "0901.21.00.00", .vstr "0901"]),
   ("description", .vstr "Coffee, roasted, not decaf"),
   ("general", .vstr "Free"),
   ("units", .vlist [.vstr "kg"])]

/-! # Theorems -/

/-! ## Association-list lemmas -/

theorem lookupKey_append {α : Type} (l1 l2 : List (String × α)) (k : String) :
    lookupKey (l1 ++ l2) k =
      match lookupKey l1 k with
      | some v => some v
      | none => lookupKey l2 k := by
  induction l1 with
  | nil => simp [lookupKey]
  | cons p rest ih =>
    by_cases h : k = p.1
    · simp [lookupKey, h]
    · simp [lookupKey, h, ih]

theorem lookupKey_mapSet : ∀ (r : Row) (k : String) (v : PyVal),
    (lookupKey r k).isSome = true →
    lookupKey (r.map (fun p => if p.1 = k then (k, v) else p)) k = some v
  | [], k, _, h => by simp [lookupKey] at h
  | (k1, w) :: rest, k, v, h => by
    simp only [List.map_cons]
    by_cases hk : k1 = k
    · rw [if_pos (show ((k1, w) : String × PyVal).1 = k from hk)]
      simp [lookupKey]
    · rw [if_neg (show ¬ ((k1, w) : String × PyVal).1 = k from hk)]
      have hne : ¬ k = k1 := fun hh => hk hh.symm
      simp only [lookupKey, if_neg hne] at h ⊢
      exact lookupKey_mapSet rest k v h

theorem lookupKey_mapSet_ne : ∀ (r : Row) (k k2 : String) (v : PyVal), k2 ≠ k →
    lookupKey (r.map (fun p => if p.1 = k then (k, v) else p)) k2 = lookupKey r k2
  | [], _, _, _, _ => by simp
  | (k1, w) :: rest, k, k2, v, h => by
    simp only [List.map_cons]
    by_cases hk : k1 = k
    · rw [if_pos (show ((k1, w) : String × PyVal).1 = k from hk)]
      have h2 : ¬ k2 = k1 := by rw [hk]; exact h
      simp only [lookupKey, if_neg h, if_neg h2]
      exact lookupKey_mapSet_ne rest k k2 v h
    · rw [if_neg (show ¬ ((k1, w) : String × PyVal).1 = k from hk)]
      by_cases hp : k2 = k1
      · simp only [lookupKey, if_pos hp]
      · simp only [lookupKey, if_neg hp]
        exact lookupKey_mapSet_ne rest k k2 v h

theorem dictGet_set_same (r : Row) (k : String) (v d : PyVal) :
    dictGet (dictSet r k v) k d = v := by
  unfold dictSet dictGet
  by_cases h : (lookupKey r k).isSome
  · rw [if_pos h, lookupKey_mapSet r k v h]
    rfl
  · rw [if_neg h, lookupKey_append]
    have hn : lookupKey r k = none := by
      cases hh : lookupKey r k
      · rfl
      · rw [hh] at h; simp at h
    rw [hn]
    simp [lookupKey]

theorem dictGet_set_ne (r : Row) (k k2 : String) (v d : PyVal) (h : k2 ≠ k) :
    dictGet (dictSet r k v) k2 d = dictGet r k2 d := by
  unfold dictSet dictGet
  by_cases hs : (lookupKey r k).isSome
  · rw [if_pos hs, lookupKey_mapSet_ne r k k2 v h]
  · rw [if_neg hs, lookupKey_append]
    cases hh : lookupKey r k2
    · simp [lookupKey, h]
    · simp

/-! ## Cleaning and non-blankness lemmas -/

theorem truthyNonblank_of_clean_empty {v : PyVal}
    (h : cleanTextVal v = .ok "") : truthyNonblank v = false := by
  cases v with
  | vnone => rfl
  | vstr s =>
    simp only [cleanTextVal, Except.ok.injEq] at h
    simp [truthyNonblank, strNonblank, h]
  | vint n =>
    simp only [cleanTextVal] at h
    by_cases hp : pyTruthy (PyVal.vint n) = true
    · rw [if_pos hp] at h; cases h
    · simp [truthyNonblank, Bool.eq_false_iff.mpr hp]
  | vfloat q =>
    simp only [cleanTextVal] at h
    by_cases hp : pyTruthy (PyVal.vfloat q) = true
    · rw [if_pos hp] at h; cases h
    · simp [truthyNonblank, Bool.eq_false_iff.mpr hp]
  | vbool b =>
    simp only [cleanTextVal] at h
    by_cases hp : pyTruthy (PyVal.vbool b) = true
    · rw [if_pos hp] at h; cases h
    · simp [truthyNonblank, Bool.eq_false_iff.mpr hp]
  | vlist l =>
    simp only [cleanTextVal] at h
    by_cases hp : pyTruthy (PyVal.vlist l) = true
    · rw [if_pos hp] at h; cases h
    · simp [truthyNonblank, Bool.eq_false_iff.mpr hp]

theorem cleanTextVal_ok_of_strOrNone {v : PyVal} (h : isStrOrNone v = true) :
    ∃ s, cleanTextVal v = .ok s := by
  cases v <;> simp_all [isStrOrNone, cleanTextVal]

/-! ## Merge-view lemmas -/

theorem dictGet_mergeOne_same (e r : Row) (f : String) :
    dictGet (mergeOne e r f) f .vnone =
      if truthyNonblank (dictGet e f .vnone) then dictGet e f .vnone
      else dictGet r f .vnone := by
  unfold mergeOne
  by_cases h : truthyNonblank (dictGet e f .vnone) = true
  · simp only [h, if_true, if_pos h, dictGet_set_same]
  · simp only [if_neg h]

theorem dictGet_mergeOne_ne (e r : Row) (f f2 : String) (h : f2 ≠ f) :
    dictGet (mergeOne e r f) f2 .vnone = dictGet r f2 .vnone := by
  unfold mergeOne
  by_cases hc : truthyNonblank (dictGet e f .vnone) = true
  · simp only [if_pos hc, dictGet_set_ne r f f2 _ _ h]
  · simp only [if_neg hc]

theorem dictGet_merge (rl e : Row) (f : String)
    (hf : f = "general" ∨ f = "special" ∨ f = "other") :
    dictGet (merge_resolved_view (some rl) (some e)) f .vnone =
      if truthyNonblank (dictGet e f .vnone) then dictGet e f .vnone
      else dictGet rl f .vnone := by
  rcases hf with hf | hf | hf <;> subst hf <;>
    simp only [merge_resolved_view]
  · rw [dictGet_mergeOne_ne _ _ _ _ (by decide),
      dictGet_mergeOne_ne _ _ _ _ (by decide), dictGet_mergeOne_same]
  · rw [dictGet_mergeOne_ne _ _ _ _ (by decide), dictGet_mergeOne_same,
      dictGet_mergeOne_ne _ _ _ _ (by decide)]
  · rw [dictGet_mergeOne_same, dictGet_mergeOne_ne _ _ _ _ (by decide),
      dictGet_mergeOne_ne _ _ _ _ (by decide)]

/-! ## Resolver lemmas -/

theorem hasDutyRate_false {item : Row} (h : hasDutyRate item = .ok false) :
    cleanTextVal (dictGet item "general" .vnone) = .ok "" ∧
    cleanTextVal (dictGet item "special" .vnone) = .ok "" ∧
    cleanTextVal (dictGet item "other" .vnone) = .ok "" := by
  unfold hasDutyRate at h
  split at h
  · simp at h
  · rename_i g hg
    split at h
    · simp at h
    · rename_i hgne
      split at h
      · simp at h
      · rename_i s hs
        split at h
        · simp at h
        · rename_i hsne
          split at h
          · simp at h
          · rename_i o ho
            split at h
            · simp at h
            · rename_i hone
              exact ⟨by rw [hg, not_not.mp hgne],
                     by rw [hs, not_not.mp hsne],
                     by rw [ho, not_not.mp hone]⟩

theorem addAncestors_shape : ∀ (l cands : List Row) (chain : List String)
    (out : List Row × List String), addAncestors l cands chain = .ok out →
    ∃ cs, out.1 = cands ++ cs ∧ ∀ x ∈ cs, x ∈ l
  | [], cands, chain, out, h => by
    simp only [addAncestors] at h
    injection h with h
    exact ⟨[], by rw [← h]; simp, by simp⟩
  | item :: rest, cands, chain, out, h => by
    simp only [addAncestors] at h
    split at h
    · simp at h
    · rename_i code hc
      split at h
      · rename_i hcd
        obtain ⟨cs, h1, h2⟩ :=
          addAncestors_shape rest (cands ++ [item]) (chain ++ [code]) out h
        refine ⟨item :: cs, ?_, ?_⟩
        · rw [h1]; simp
        · intro x hx
          rcases List.mem_cons.mp hx with hx | hx
          · rw [hx]; exact List.mem_cons_self _ _
          · exact List.mem_cons_of_mem _ (h2 x hx)
      · rename_i hcd
        obtain ⟨cs, h1, h2⟩ := addAncestors_shape rest cands chain out h
        exact ⟨cs, h1, fun x hx => List.mem_cons_of_mem _ (h2 x hx)⟩

/-- C1: when the effective duty line resolved for a requested row (whose
cleaned `htsno` is non-empty, as `search_hts_quantitative_details`
guarantees by verifying the fetched row's code equals the non-empty
normalized input) is non-null, every rate field (`general`, `special`,
`other`) that is non-blank in the view produced by `merge_resolved_view`
equals that field of the effective duty line.  The requested row is the
first candidate of `resolve_effective_duty_line`, so if the requested row
itself carried a non-blank rate it is itself the effective line. -/
theorem c1_rate_fields_from_effective
    (requested_line : Row) (ancestor_lines : List Row) (target_hts code : String)
    (eff : Row) (chain : List String)
    (hres : resolve_effective_duty_line (some requested_line) ancestor_lines target_hts
      = .ok (some eff, chain))
    (hcode : cleanTextVal (dictGet requested_line "htsno" (.vstr "")) = .ok code)
    (hne : code ≠ "")
    (f : String) (hf : f = "general" ∨ f = "special" ∨ f = "other")
    (hnb : truthyNonblank
      (dictGet (merge_resolved_view (some requested_line) (some eff)) f .vnone) = true) :
    dictGet (merge_resolved_view (some requested_line) (some eff)) f .vnone
      = dictGet eff f .vnone := by
  have hrl : requested_line ≠ [] := by
    intro hempty
    rw [hempty] at hcode
    have h0 : cleanTextVal (dictGet ([] : Row) "htsno" (.vstr "")) = Except.ok "" := rfl
    rw [h0] at hcode
    injection hcode with hcode
    exact hne hcode.symm
  have hsc : startCand (some requested_line) = .ok ([requested_line], [code]) := by
    simp only [startCand]
    rw [if_neg hrl, hcode]
    exact if_pos hne
  -- the effective line is either the requested row itself or the requested
  -- row has only blank rates
  have hkey : eff = requested_line ∨ hasDutyRate requested_line = .ok false := by
    unfold resolve_effective_duty_line at hres
    split at hres
    · simp at hres
    · rename_i cands chain0 heq
      rw [hsc] at heq
      injection heq with heq
      cases heq
      split at hres
      · simp at hres
      · rename_i cands2 chain2 heq2
        split at hres
        · simp at hres
        · rename_i line heq3
          injection hres with hres
          have hline : line = some eff := congrArg Prod.fst hres
          obtain ⟨cs, hq1, _⟩ := addAncestors_shape _ _ _ _ heq2
          have hq2 : cands2 = [requested_line] ++ cs := hq1
          rw [hq2, hline] at heq3
          simp only [List.singleton_append, findDutyLine] at heq3
          split at heq3
          · simp at heq3
          · rename_i hhd
            injection heq3 with heq3
            exact Or.inl (Option.some.inj heq3).symm
          · rename_i hhd
            exact Or.inr hhd
  rw [dictGet_merge requested_line eff f hf] at hnb ⊢
  by_cases hc : truthyNonblank (dictGet eff f .vnone) = true
  · rw [if_pos hc]
  · rw [if_neg hc] at hnb ⊢
    rcases hkey with hkey | hkey
    · rw [hkey]
    · exfalso
      obtain ⟨h1, h2, h3⟩ := hasDutyRate_false hkey
      rcases hf with hf | hf | hf <;> subst hf
      · rw [truthyNonblank_of_clean_empty h1] at hnb; cases hnb
      · rw [truthyNonblank_of_clean_empty h2] at hnb; cases hnb
      · rw [truthyNonblank_of_clean_empty h3] at hnb; cases hnb

/-- C1 witness: a concrete resolution in which the 4-digit ancestor is the
effective line and the merged view's `general` comes from it. -/
theorem c1_rate_fields_from_effective_witness :
    dictGet (merge_resolved_view (some wRow10) (some wRow4)) "general" .vnone
      = dictGet wRow4 "general" .vnone :=
  c1_rate_fields_from_effective wRow10 [wRow4] "0901.21.00.00" "0901.21.00.00"
    wRow4 ["0901.21.00.00", "0901"] rfl rfl (by decide) "general" (Or.inl rfl) rfl

/-! ## Retry-fetcher lemmas -/

theorem requestLoop_congr (o o2 : Nat → ReqOutcome) (timeout max_retries : Nat) :
    ∀ (remaining attempt : Nat) (last : Option APIError),
      (∀ i, attempt ≤ i → i < attempt + remaining → o i = o2 i) →
      requestLoop o timeout max_retries attempt remaining last =
        requestLoop o2 timeout max_retries attempt remaining last
  | 0, _, _, _ => rfl
  | remaining + 1, attempt, last, h => by
    have h0 : o attempt = o2 attempt := h attempt (Nat.le_refl _) (by omega)
    have hstep : ∀ i, attempt + 1 ≤ i → i < attempt + 1 + remaining → o i = o2 i :=
      fun i h1 h2 => h i (by omega) (by omega)
    simp only [requestLoop]
    rw [h0]
    cases o2 attempt with
    | success r => rfl
    | timeout =>
      exact requestLoop_congr o o2 timeout max_retries remaining (attempt + 1) _ hstep
    | connError m =>
      exact requestLoop_congr o o2 timeout max_retries remaining (attempt + 1) _ hstep
    | httpError st m =>
      dsimp only
      split
      · rfl
      · exact requestLoop_congr o o2 timeout max_retries remaining (attempt + 1) _ hstep
    | reqError m =>
      exact requestLoop_congr o o2 timeout max_retries remaining (attempt + 1) _ hstep

/-- C3: the retry-wrapped fetcher makes at most 3 attempts — its result
depends only on the outcomes of attempts 0, 1 and 2; two timeout failures
followed by a success return that success with no error; three timeout
failures fail with the last observed timeout error carrying
`retries_attempted = 3`. -/
theorem c3_retry_policy :
    (∀ (o : Nat → ReqOutcome) (r : Nat), o 0 = .timeout → o 1 = .timeout →
      o 2 = .success r →
      request_with_retry o MAX_RETRIES REQUEST_TIMEOUT = .ok r) ∧
    (∀ o : Nat → ReqOutcome, o 0 = .timeout → o 1 = .timeout → o 2 = .timeout →
      request_with_retry o MAX_RETRIES REQUEST_TIMEOUT =
        .error { message := "Request timed out after 30s", status_code := none,
                 retries_attempted := 3 }) ∧
    (∀ o o2 : Nat → ReqOutcome, (∀ i, i < MAX_RETRIES → o i = o2 i) →
      request_with_retry o MAX_RETRIES REQUEST_TIMEOUT =
        request_with_retry o2 MAX_RETRIES REQUEST_TIMEOUT) := by
  refine ⟨?_, ?_, ?_⟩
  · intro o r h0 h1 h2
    simp only [request_with_retry, MAX_RETRIES, REQUEST_TIMEOUT, requestLoop, h0, h1, h2]
  · intro o h0 h1 h2
    simp only [request_with_retry, MAX_RETRIES, REQUEST_TIMEOUT, requestLoop, h0, h1, h2,
      Option.getD]
    rfl
  · intro o o2 h
    exact requestLoop_congr o o2 REQUEST_TIMEOUT MAX_RETRIES MAX_RETRIES 0 none
      (fun i _ h2 => h i (by simpa using h2))

/-- C3 witness: concrete outcome sequences exercising both retry paths. -/
theorem c3_retry_policy_witness :
    request_with_retry outcomesTTS MAX_RETRIES REQUEST_TIMEOUT = .ok 7 ∧
    request_with_retry outcomesAllT MAX_RETRIES REQUEST_TIMEOUT =
      .error { message := "Request timed out after 30s", status_code := none,
               retries_attempted := 3 } :=
  ⟨c3_retry_policy.1 outcomesTTS 7 rfl rfl rfl,
   c3_retry_policy.2.1 outcomesAllT rfl rfl rfl⟩

/-- C4: contrary to the claim, a 4xx response is never terminal.  The
handler computes `status_code = e.response.status_code if e.response else
None`, and a `requests.Response` is truthy only when its status is below
400, so for every `HTTPError` raised by `raise_for_status` the computed
status is `None` and the terminal 4xx branch never fires.  A request
answered 404 on every attempt is retried like any other failure and fails
only after all 3 attempts, with the retryable-error message, no status
code, and `retries_attempted = 3` — not immediately with the 404 status
and `retries_attempted = 1`.  429 and 5xx are retried as the claim says. -/
theorem c4_terminal_4xx_branch_dead :
    (∀ st, terminalStatus (respStatusCode st) = false) ∧
    request_with_retry outcomes404 MAX_RETRIES REQUEST_TIMEOUT =
      .error { message := "HTTP error: not found", status_code := none,
               retries_attempted := 3 } ∧
    request_with_retry outcomes404 MAX_RETRIES REQUEST_TIMEOUT ≠
      .error { message := httpTerminalMsg (some 404) "not found",
               status_code := some 404, retries_attempted := 1 } ∧
    request_with_retry outcomes429S MAX_RETRIES REQUEST_TIMEOUT = .ok 5 ∧
    request_with_retry outcomes503S MAX_RETRIES REQUEST_TIMEOUT = .ok 9 := by
  have h404 : request_with_retry outcomes404 MAX_RETRIES REQUEST_TIMEOUT =
      .error { message := "HTTP error: not found", status_code := none,
               retries_attempted := 3 } := rfl
  refine ⟨?_, h404, ?_, rfl, rfl⟩
  · intro st
    cases st with
    | none => rfl
    | some s =>
      simp only [respStatusCode]
      by_cases h : s < 400
      · have h2 : decide (400 ≤ s) = false := decide_eq_false (by omega)
        simp [terminalStatus, if_pos h, h2]
      · simp [terminalStatus, if_neg h]
  · intro hcontra
    rw [h404] at hcontra
    injection hcontra with h2
    have h3 := congrArg APIError.retries_attempted h2
    simp at h3

/-- C2: when the exportList call for the requested code's exact row fails
with an `APIError`, `search_hts_quantitative_details` reports the
NotFound message, not a message carrying the `APIError`'s message and
retry count — `fetch_hts_row` swallows the `APIError` and returns `None`,
so the `except APIError` handler of the search function never fires. -/
theorem c2_apierror_surfaces_as_notfound :
    (search_hts_quantitative_details timeoutExportO "0901.21.00.00").error_message =
      some "Exact HTS code not found: 0901.21.00.00" ∧
    (search_hts_quantitative_details timeoutExportO "0901.21.00.00").error_message ≠
      some "API error: Request timed out after 30s (retries: 3)" := by
  have h1 : (search_hts_quantitative_details timeoutExportO "0901.21.00.00").error_message =
      some "Exact HTS code not found: 0901.21.00.00" := rfl
  refine ⟨h1, ?_⟩
  rw [h1]
  decide

/-- C6: the ancestors of `"0901.21.00.00"` are exactly
`["0901.21.00", "0901.21", "0901"]` in that order, and when the requested
row and the 8- and 6-digit ancestor rows all have blank rates while the
4-digit row has a non-blank `general`, the resolver returns the 4-digit
row with the full four-code fallback chain, 4-digit code last. -/
theorem c6_ancestors_and_fallback :
    get_ancestor_codes "0901.21.00.00" = ["0901.21.00", "0901.21", "0901"] ∧
    ∀ (r10 r8 r6 r4 : Row) (g : String),
      cleanTextVal (dictGet r10 "htsno" (.vstr "")) = .ok "0901.21.00.00" →
      cleanTextVal (dictGet r8 "htsno" (.vstr "")) = .ok "0901.21.00" →
      cleanTextVal (dictGet r6 "htsno" (.vstr "")) = .ok "0901.21" →
      cleanTextVal (dictGet r4 "htsno" (.vstr "")) = .ok "0901" →
      hasDutyRate r10 = .ok false →
      hasDutyRate r8 = .ok false →
      hasDutyRate r6 = .ok false →
      cleanTextVal (dictGet r4 "general" .vnone) = .ok g → g ≠ "" →
      resolve_effective_duty_line (some r10) [r8, r6, r4] "0901.21.00.00" =
        .ok (some r4, ["0901.21.00.00", "0901.21.00", "0901.21", "0901"]) := by
  refine ⟨rfl, ?_⟩
  intro r10 r8 r6 r4 g h10 h8 h6 h4 hd10 hd8 hd6 hg hgne
  have hrl : r10 ≠ [] := by
    intro he
    rw [he] at h10
    have h0 : cleanTextVal (dictGet ([] : Row) "htsno" (.vstr "")) = Except.ok "" := rfl
    rw [h0] at h10
    injection h10 with hh
    exact absurd hh (by decide)
  have hd4 : hasDutyRate r4 = .ok true := by
    simp only [hasDutyRate, hg]
    exact if_pos hgne
  have hsc : startCand (some r10) = .ok ([r10], ["0901.21.00.00"]) := by
    simp only [startCand]
    rw [if_neg hrl, h10]
    exact if_pos (by decide)
  have haa : addAncestors [r8, r6, r4] [r10] ["0901.21.00.00"] =
      .ok ([r10, r8, r6, r4], ["0901.21.00.00", "0901.21.00", "0901.21", "0901"]) := by
    simp [addAncestors, h8, h6, h4]
  have hfd : findDutyLine [r10, r8, r6, r4] = .ok (some r4) := by
    simp only [findDutyLine, hd10, hd8, hd6, hd4]
  simp only [resolve_effective_duty_line, hsc, haa, hfd]

/-- C6 witness: concrete rows realising the blank-rate hypotheses. -/
theorem c6_ancestors_and_fallback_witness :
    resolve_effective_duty_line (some wRow10) [wRow8, wRow6, wRow4] "0901.21.00.00" =
      .ok (some wRow4, ["0901.21.00.00", "0901.21.00", "0901.21", "0901"]) :=
  c6_ancestors_and_fallback.2 wRow10 wRow8 wRow6 wRow4 "Free"
    rfl rfl rfl rfl rfl rfl rfl rfl (by decide)

/-! ## Totality of the resolver on well-typed rows -/

theorem hasDutyRate_ok_of_good {r : Row} (h : goodRow r = true) :
    ∃ b, hasDutyRate r = .ok b := by
  simp only [goodRow, Bool.and_eq_true] at h
  obtain ⟨⟨⟨_, hg⟩, hs⟩, ho⟩ := h
  obtain ⟨sg, hg2⟩ := cleanTextVal_ok_of_strOrNone hg
  obtain ⟨ss, hs2⟩ := cleanTextVal_ok_of_strOrNone hs
  obtain ⟨so, ho2⟩ := cleanTextVal_ok_of_strOrNone ho
  simp only [hasDutyRate, hg2, hs2, ho2]
  split_ifs <;> exact ⟨_, rfl⟩

theorem startCand_ok_of_good (requested_line : Option Row)
    (hreq : ∀ r, requested_line = some r → goodRow r = true) :
    ∃ p, startCand requested_line = .ok p ∧ ∀ x ∈ p.1, goodRow x = true := by
  cases requested_line with
  | none => exact ⟨([], []), rfl, by simp⟩
  | some rl =>
    have hgood := hreq rl rfl
    by_cases he : rl = []
    · refine ⟨([], []), ?_, by simp⟩
      simp [startCand, he]
    · have hhts : isStrOrNone (dictGet rl "htsno" (.vstr "")) = true := by
        simp only [goodRow, Bool.and_eq_true] at hgood
        exact hgood.1.1.1
      obtain ⟨s, hs⟩ := cleanTextVal_ok_of_strOrNone hhts
      simp only [startCand, if_neg he, hs]
      split_ifs with hc
      · exact ⟨([rl], [s]), rfl, by
          intro x hx
          simp only [List.mem_singleton] at hx
          rw [hx]; exact hgood⟩
      · exact ⟨([], []), rfl, by simp⟩

theorem addAncestors_ok_of_good : ∀ (l cands : List Row) (chain : List String),
    (∀ r ∈ l, goodRow r = true) →
    ∃ out, addAncestors l cands chain = .ok out ∧
      ∀ x ∈ out.1, x ∈ cands ∨ goodRow x = true
  | [], cands, chain, _ => ⟨(cands, chain), rfl, fun x hx => Or.inl hx⟩
  | item :: rest, cands, chain, h => by
    have hgood := h item (List.mem_cons_self _ _)
    have hhts : isStrOrNone (dictGet item "htsno" (.vstr "")) = true := by
      simp only [goodRow, Bool.and_eq_true] at hgood
      exact hgood.1.1.1
    obtain ⟨s, hs⟩ := cleanTextVal_ok_of_strOrNone hhts
    have hgood2 := h item (List.mem_cons_self _ _)
    have hrest : ∀ r ∈ rest, goodRow r = true := fun r hr => h r (List.mem_cons_of_mem _ hr)
    simp only [addAncestors, hs]
    split_ifs with hc
    · obtain ⟨out, ho, hm⟩ := addAncestors_ok_of_good rest (cands ++ [item]) (chain ++ [s]) hrest
      refine ⟨out, ho, fun x hx => ?_⟩
      rcases hm x hx with hx2 | hx2
      · rcases List.mem_append.mp hx2 with h3 | h3
        · exact Or.inl h3
        · simp only [List.mem_singleton] at h3
          rw [h3]; exact Or.inr hgood2
      · exact Or.inr hx2
    · exact addAncestors_ok_of_good rest cands chain hrest

theorem findDutyLine_ok_of_good : ∀ l : List Row, (∀ r ∈ l, goodRow r = true) →
    ∃ line, findDutyLine l = .ok line
  | [], _ => ⟨none, rfl⟩
  | item :: rest, h => by
    obtain ⟨b, hb⟩ := hasDutyRate_ok_of_good (h item (List.mem_cons_self _ _))
    cases b with
    | false =>
      obtain ⟨line, hl⟩ :=
        findDutyLine_ok_of_good rest (fun r hr => h r (List.mem_cons_of_mem _ hr))
      exact ⟨line, by simp only [findDutyLine, hb, hl]⟩
    | true => exact ⟨some item, by simp only [findDutyLine, hb]⟩

/-- C10 (amended): `resolve_effective_duty_line` always returns a
(line, chain) pair when each row's `general`, `special`, `other` AND
`htsno` fields are strings or absent/`None` — the duty-rate test coerces
missing or falsy values to `""` before trimming.  (The `htsno` condition
is required: cleaning the fallback-chain code of a row raises on a truthy
non-string `htsno` even when all rate fields satisfy the original
precondition, see the counterexample.) -/
theorem c10_resolve_total_on_typed_rows
    (requested_line : Option Row) (ancestor_lines : List Row) (target_hts : String)
    (hreq : ∀ r, requested_line = some r → goodRow r = true)
    (hanc : ∀ r ∈ ancestor_lines, goodRow r = true) :
    ∃ out, resolve_effective_duty_line requested_line ancestor_lines target_hts
      = .ok out := by
  obtain ⟨⟨cands, chain⟩, hp, hpm⟩ := startCand_ok_of_good requested_line hreq
  obtain ⟨⟨cands2, chain2⟩, hq, hqm⟩ := addAncestors_ok_of_good ancestor_lines cands chain hanc
  have hqall : ∀ x ∈ cands2, goodRow x = true := by
    intro x hx
    rcases hqm x hx with h1 | h1
    · exact hpm x h1
    · exact h1
  obtain ⟨line, hl⟩ := findDutyLine_ok_of_good cands2 hqall
  refine ⟨(line, chain2), ?_⟩
  simp only [resolve_effective_duty_line, hp, hq, hl]

/-- C10 counterexample: this row meets the claim's stated precondition —
its `general`, `special` and `other` fields are all absent — yet
`resolve_effective_duty_line` raises (`AttributeError` on
`(5 or "").strip()` while cleaning the `htsno`). -/
theorem c10_counterexample :
    dictGet badHtsnoRow "general" .vnone = .vnone ∧
    dictGet badHtsnoRow "special" .vnone = .vnone ∧
    dictGet badHtsnoRow "other" .vnone = .vnone ∧
    resolve_effective_duty_line (some badHtsnoRow) [] "0901" = .error () :=
  ⟨rfl, rfl, rfl, rfl⟩

/-- C10 witness: a well-typed row resolves without raising. -/
theorem c10_resolve_total_witness :
    ∃ out, resolve_effective_duty_line (some c10GoodRow) [] "0901" = .ok out :=
  c10_resolve_total_on_typed_rows (some c10GoodRow) [] "0901"
    (fun r hr => by injection hr with hr; rw [← hr]; decide)
    (fun r hr => absurd hr (List.not_mem_nil r))

/-! ## Query classification -/

/-- C8: `mapping_lookup` classifies `"61 cotton"` as a hybrid query with
prefix `"61"` and keyword `"cotton"`, `"8471300000"` as an exact HTS code
(its digit count is 10, one of the exact lengths 4/6/8/10), and
`"coffee"` as a keyword query. -/
theorem c8_classification :
    parse_hybrid_query "61 cotton" = (some "61", some "cotton") ∧
    Except.map (fun r => r.mode)
      (mapping_lookup emptySearchO emptyExportO "61 cotton" 500 true) = .ok "hybrid" ∧
    is_exact_hts_code "8471300000" = true ∧
    hts_digits_len "8471300000" = 10 ∧
    Except.map (fun r => r.mode)
      (mapping_lookup emptySearchO emptyExportO "8471300000" 500 true) = .ok "exact_hts" ∧
    is_hts_like "coffee" = false ∧
    Except.map (fun r => r.mode)
      (mapping_lookup emptySearchO emptyExportO "coffee" 500 true) = .ok "keyword" :=
  ⟨rfl, rfl, rfl, rfl, rfl, rfl, rfl⟩

/-! ## Deduplication and truncation -/

theorem dedupeGo_fixed : ∀ (l : List MappingCandidate) (seen : List String),
    dedupeGo (dedupeGo l seen) seen = dedupeGo l seen
  | [], _ => rfl
  | c :: rest, seen => by
    by_cases h : c.htsno ∈ seen
    · simp only [dedupeGo, if_pos h]
      exact dedupeGo_fixed rest seen
    · simp only [dedupeGo, if_neg h]
      rw [dedupeGo_fixed rest (c.htsno :: seen)]

theorem dedupe_candidates_idem (l : List MappingCandidate) :
    dedupe_candidates (dedupe_candidates l) = dedupe_candidates l :=
  dedupeGo_fixed l []

set_option maxHeartbeats 2000000 in
theorem lookup_hts_shape (fs : SearchOracle) (fe : ExportOracle) (query : String)
    (max_results : Nat) (use_range : Bool) (res : LookupResult)
    (h : lookup_hts fs fe query max_results use_range = .ok res)
    (hm : res.mode ≠ "error") :
    ∃ l, dedupe_candidates l = l ∧ res.candidates = l.take max_results ∧
      res.count = l.length := by
  cases use_range with
  | true =>
    cases hfr : fetch_range_enumeration fe (normalize_hts_input query) with
    | error e =>
      simp [lookup_hts, hfr] at h
      rw [← h] at hm
      exact absurd rfl hm
    | ok raw =>
      cases hex : extract_candidates_from_items raw with
      | error e => simp [lookup_hts, hfr, hex] at h
      | ok cands0 =>
        simp [lookup_hts, hfr, hex, INCLUDE_CONTEXT] at h
        refine ⟨dedupe_candidates
          ( filter_by_hts_prefix cands0 (normalize_hts_input query)),
          dedupe_candidates_idem _, ?_, ?_⟩ <;> rw [← h] <;> rfl
  | false =>
    cases hfr : fs (normalize_hts_input query) with
    | error e =>
      simp [lookup_hts, hfr] at h
      rw [← h] at hm
      exact absurd rfl hm
    | ok raw =>
      cases hex : extract_candidates_from_items raw with
      | error e => simp [lookup_hts, hfr, hex] at h
      | ok cands0 =>
        simp [lookup_hts, hfr, hex, INCLUDE_CONTEXT] at h
        refine ⟨dedupe_candidates
          ( filter_by_hts_prefix cands0 (normalize_hts_input query)),
          dedupe_candidates_idem _, ?_, ?_⟩ <;> rw [← h] <;> rfl

theorem lookup_keyword_shape (fs : SearchOracle) (query : String)
    (max_results : Nat) (res : LookupResult)
    (h : lookup_keyword fs query max_results = .ok res)
    (hm : res.mode ≠ "error") :
    ∃ l, dedupe_candidates l = l ∧ res.candidates = l.take max_results ∧
      res.count = l.length := by
  cases hfr : fs query with
  | error e =>
    simp only [lookup_keyword, hfr, Except.ok.injEq] at h
    rw [← h] at hm
    exact absurd rfl hm
  | ok raw =>
    cases hex : extract_candidates_from_items raw with
    | error e => simp [lookup_keyword, hfr, hex] at h
    | ok cands0 =>
      simp only [lookup_keyword, hfr, hex, Except.ok.injEq] at h
      refine ⟨dedupe_candidates cands0, dedupe_candidates_idem _, ?_, ?_⟩ <;>
        rw [← h]

theorem lookup_hybrid_shape (fs : SearchOracle) (fe : ExportOracle)
    (htsPfx keyword : String) (max_results : Nat) (use_range : Bool)
    (res : LookupResult)
    (h : lookup_hybrid fs fe htsPfx keyword max_results use_range = .ok res)
    (hm : res.mode ≠ "error") :
    ∃ l, dedupe_candidates l = l ∧ res.candidates = l.take max_results ∧
      res.count = l.length := by
  cases use_range with
  | true =>
    cases hfr : fetch_range_enumeration fe htsPfx with
    | error e =>
      simp [lookup_hybrid, hfr] at h
      rw [← h] at hm
      exact absurd rfl hm
    | ok raw =>
      cases hex : extract_candidates_from_items raw with
      | error e => simp [lookup_hybrid, hfr, hex] at h
      | ok cands0 =>
        simp [lookup_hybrid, hfr, hex, INCLUDE_CONTEXT] at h
        refine ⟨dedupe_candidates
          (filter_by_keyword ( filter_by_hts_prefix cands0 htsPfx) keyword),
          dedupe_candidates_idem _, ?_, ?_⟩ <;> rw [← h] <;> rfl
  | false =>
    cases hfr : fs htsPfx with
    | error e =>
      simp [lookup_hybrid, hfr] at h
      rw [← h] at hm
      exact absurd rfl hm
    | ok raw =>
      cases hex : extract_candidates_from_items raw with
      | error e => simp [lookup_hybrid, hfr, hex] at h
      | ok cands0 =>
        simp [lookup_hybrid, hfr, hex, INCLUDE_CONTEXT] at h
        refine ⟨dedupe_candidates
          (filter_by_keyword ( filter_by_hts_prefix cands0 htsPfx) keyword),
          dedupe_candidates_idem _, ?_, ?_⟩ <;> rw [← h] <;> rfl

/-- C9: a non-error `LookupResult` of `mapping_lookup` holds at most
`max_results` candidates — they are the `max_results`-truncation of the
deduplicated candidate list — while `count` is the length of that list
before truncation, so `count` exceeds the returned candidates whenever
more than `max_results` existed. -/
theorem c9_count_vs_truncation (fs : SearchOracle) (fe : ExportOracle)
    (query : String) (max_results : Nat) (use_range : Bool) (res : LookupResult)
    (h : mapping_lookup fs fe query max_results use_range = .ok res)
    (hm : res.mode ≠ "error") :
    ∃ l, dedupe_candidates l = l ∧ res.candidates = l.take max_results ∧
      res.count = l.length ∧ res.candidates.length ≤ max_results := by
  have key : ∃ l, dedupe_candidates l = l ∧ res.candidates = l.take max_results ∧
      res.count = l.length := by
    simp only [mapping_lookup] at h
    split at h
    · injection h with h
      refine ⟨[], rfl, ?_, ?_⟩ <;> rw [← h] <;> simp
    · split at h
      · split at h
        · exact lookup_hybrid_shape _ _ _ _ _ _ _ h hm
        · split at h
          · exact lookup_hts_shape _ _ _ _ _ _ h hm
          · exact lookup_keyword_shape _ _ _ _ h hm
      · split at h
        · exact lookup_hts_shape _ _ _ _ _ _ h hm
        · exact lookup_keyword_shape _ _ _ _ h hm
  obtain ⟨l, h1, h2, h3⟩ := key
  refine ⟨l, h1, h2, h3, ?_⟩
  rw [h2, List.length_take]
  exact Nat.min_le_left _ _

/-- C9 witness: a concrete lookup over the trivial oracle. -/
theorem c9_count_vs_truncation_witness :
    ∃ l, dedupe_candidates l = l ∧
      (LookupResult.mk "keyword" "coffee" 0 [] none none).candidates = l.take 500 ∧
      (LookupResult.mk "keyword" "coffee" 0 [] none none).count = l.length ∧
      (LookupResult.mk "keyword" "coffee" 0 [] none none).candidates.length ≤ 500 :=
  c9_count_vs_truncation emptySearchO emptyExportO "coffee" 500 true
    (LookupResult.mk "keyword" "coffee" 0 [] none none) rfl (by decide)

/-! ## Cache lemmas -/

theorem lookupKey_optEntry_append (sd : Row) (k f : String) (rest : Row) :
    lookupKey (optEntry sd k ++ rest) f =
      if f = k then
        (match lookupKey sd k with
         | some v => some v
         | none => lookupKey rest f)
      else lookupKey rest f := by
  unfold optEntry
  cases h : lookupKey sd k with
  | none => by_cases hf : f = k <;> simp [lookupKey, hf]
  | some v => by_cases hf : f = k <;> simp [lookupKey, hf]

theorem lookupKey_optEntry_bare (sd : Row) (k f : String) (h : f ≠ k) :
    lookupKey (optEntry sd k) f = none := by
  unfold optEntry
  cases lookupKey sd k <;> simp [lookupKey, h]

theorem lookupKey_ifEntry_append (c : Prop) [Decidable c] (k : String) (v : PyVal)
    (rest : Row) (f : String) :
    lookupKey ((if c then [(k, v)] else []) ++ rest) f =
      if c ∧ f = k then some v else lookupKey rest f := by
  by_cases hc : c
  · by_cases hf : f = k <;> simp [lookupKey, hc, hf]
  · simp [lookupKey, hc]

theorem lookupKey_ifEntry_bare (c : Prop) [Decidable c] (k : String) (v : PyVal)
    (f : String) :
    lookupKey (if c then [(k, v)] else []) f =
      if c ∧ f = k then some v else none := by
  by_cases hc : c
  · by_cases hf : f = k <;> simp [lookupKey, hc, hf]
  · simp [lookupKey, hc]

theorem lookupKey_rebuildView (sd : Row) (f : String)
    (hf : f = "general" ∨ f = "special" ∨ f = "other" ∨ f = "units") :
    lookupKey (rebuildView sd) f = lookupKey sd f := by
  rcases hf with hf | hf | hf | hf <;> subst hf
  · cases h : lookupKey sd "general" <;>
      simp [rebuildView, List.append_assoc, lookupKey_optEntry_append,
        lookupKey_optEntry_bare, h]
  · cases h : lookupKey sd "special" <;>
      simp [rebuildView, List.append_assoc, lookupKey_optEntry_append,
        lookupKey_optEntry_bare, h]
  · cases h : lookupKey sd "other" <;>
      simp [rebuildView, List.append_assoc, lookupKey_optEntry_append,
        lookupKey_optEntry_bare, h]
  · cases h : lookupKey sd "units" <;>
      simp [rebuildView, List.append_assoc, lookupKey_optEntry_append,
        lookupKey_optEntry_bare, h]

theorem lookupKey_compactRatesPart_rate (view : Row) (f : String)
    (hf : f = "general" ∨ f = "special" ∨ f = "other")
    (ht : truthyNonblank (dictGet view f .vnone) = true) :
    lookupKey (compactRatesPart view) f = some (dictGet view f .vnone) := by
  rcases hf with hf | hf | hf <;> subst hf <;>
    simp [compactRatesPart, List.append_assoc, lookupKey, lookupKey_ifEntry_append,
      lookupKey_ifEntry_bare, ht]

theorem lookupKey_compactRatesPart_units (view : Row)
    (ht : pyTruthy (dictGet view "units" .vnone) = true) :
    lookupKey (compactRatesPart view) "units" = some (dictGet view "units" .vnone) := by
  simp [compactRatesPart, List.append_assoc, lookupKey, lookupKey_ifEntry_append,
    lookupKey_ifEntry_bare, ht]

theorem to_compact_dict_shape {result : HTSQuantitativeResult} {cd : Row}
    (hcd : to_compact_dict result = .ok cd) :
    ∃ desc, cd =
      [("hts_code", PyVal.vstr result.hts_code),
       ("effective_hts_code", optStrVal result.effective_hts_code),
       ("fallback_chain", PyVal.vlist (result.fallback_chain.map PyVal.vstr))] ++
      (if desc ≠ "" then [("description", PyVal.vstr desc)] else []) ++
      (if result.resolved_view ≠ [] then compactRatesPart result.resolved_view
       else []) := by
  unfold to_compact_dict at hcd
  split at hcd
  · simp at hcd
  · rename_i desc hdesc
    injection hcd with hcd
    exact ⟨desc, hcd.symm⟩

/-- C7: saving a successful (non-error) resolution for a fresh code and
reading the store back yields a view with the same non-blank
general/special/other values and the same truthy units value; a second
save of the same code is a no-op reporting "already exists" (`false`);
error results are never stored; a stored code is never overwritten. -/
theorem c7_cache_roundtrip (result : HTSQuantitativeResult) (store : Store) (cd : Row) :
    (result.error_message.isSome → save_result_to_json result store = .ok (false, store)) ∧
    ((lookupKey store result.hts_code).isSome →
      save_result_to_json result store = .ok (false, store)) ∧
    (result.error_message = none → lookupKey store result.hts_code = none →
      to_compact_dict result = .ok cd →
      save_result_to_json result store =
        .ok (true, store ++ [(result.hts_code, cd)]) ∧
      save_result_to_json result (store ++ [(result.hts_code, cd)]) =
        .ok (false, store ++ [(result.hts_code, cd)]) ∧
      ∃ res2, get_stored_result result.hts_code (store ++ [(result.hts_code, cd)])
          = some res2 ∧
        (∀ f, (f = "general" ∨ f = "special" ∨ f = "other") →
          truthyNonblank (dictGet result.resolved_view f .vnone) = true →
          dictGet res2.resolved_view f .vnone = dictGet result.resolved_view f .vnone) ∧
        (pyTruthy (dictGet result.resolved_view "units" .vnone) = true →
          dictGet res2.resolved_view "units" .vnone =
            dictGet result.resolved_view "units" .vnone)) := by
  refine ⟨?_, ?_, ?_⟩
  · intro he
    unfold save_result_to_json
    rw [if_pos he]
  · intro hk
    unfold save_result_to_json
    by_cases he : result.error_message.isSome
    · rw [if_pos he]
    · rw [if_neg he, if_pos hk]
  · intro he hk hcd
    have hk3 : lookupKey (store ++ [(result.hts_code, cd)]) result.hts_code = some cd := by
      rw [lookupKey_append, hk]
      simp [lookupKey]
    obtain ⟨desc, hcdeq⟩ := to_compact_dict_shape hcd
    have hhc : lookupKey cd "hts_code" = some (PyVal.vstr result.hts_code) := by
      rw [hcdeq]
      simp [lookupKey, List.append_assoc, List.cons_append]
    have hrate : ∀ f, (f = "general" ∨ f = "special" ∨ f = "other") →
        truthyNonblank (dictGet result.resolved_view f .vnone) = true →
        lookupKey cd f = some (dictGet result.resolved_view f .vnone) := by
      intro f hf ht
      have hv : result.resolved_view ≠ [] := by
        intro hnil
        rw [hnil] at ht
        rcases hf with hf | hf | hf <;> subst hf <;>
          simp [dictGet, lookupKey, truthyNonblank, pyTruthy] at ht
      have hlast := lookupKey_compactRatesPart_rate result.resolved_view f hf ht
      rcases hf with hf | hf | hf <;> subst hf <;>
        rw [hcdeq] <;>
        simp [List.append_assoc, List.cons_append, lookupKey,
          lookupKey_ifEntry_append, hv, hlast] <;>
        by_cases hd : desc = "" <;>
        simp [hd, lookupKey, hlast]
    have hunits : pyTruthy (dictGet result.resolved_view "units" .vnone) = true →
        lookupKey cd "units" = some (dictGet result.resolved_view "units" .vnone) := by
      intro ht
      have hv : result.resolved_view ≠ [] := by
        intro hnil
        rw [hnil] at ht
        simp [dictGet, lookupKey, pyTruthy] at ht
      have hlast := lookupKey_compactRatesPart_units result.resolved_view ht
      rw [hcdeq]
      simp [List.append_assoc, List.cons_append, lookupKey,
        lookupKey_ifEntry_append, hv, hlast]
      by_cases hd : desc = "" <;> simp [hd, lookupKey, hlast]
    have hreb : ∃ res2, rebuildStored cd = .ok res2 ∧
        res2.resolved_view = rebuildView cd := by
      simp only [rebuildStored, hhc, pyStrOf]
      exact ⟨_, rfl, rfl⟩
    obtain ⟨res2, hr1, hr2⟩ := hreb
    refine ⟨?_, ?_, res2, ?_, ?_, ?_⟩
    · simp [save_result_to_json, he, hk, hcd]
    · simp [save_result_to_json, he, hk3]
    · simp [get_stored_result, hk3, hr1]
    · intro f hf ht
      rw [hr2]
      unfold dictGet
      rw [lookupKey_rebuildView cd f
        (by rcases hf with hf | hf | hf
            · exact Or.inl hf
            · exact Or.inr (Or.inl hf)
            · exact Or.inr (Or.inr (Or.inl hf))),
        hrate f hf ht]
      rfl
    · intro ht
      rw [hr2]
      unfold dictGet
      rw [lookupKey_rebuildView cd "units" (Or.inr (Or.inr (Or.inr rfl))),
        hunits ht]
      rfl

/-- C7 witness: a concrete successful result saved into an empty store,
re-saved (no-op) and read back. -/
theorem c7_cache_roundtrip_witness :
    save_result_to_json wResult [] = .ok (true, [] ++ [(wResult.hts_code, wCompact)]) ∧
    save_result_to_json wResult ([] ++ [(wResult.hts_code, wCompact)]) =
      .ok (false, [] ++ [(wResult.hts_code, wCompact)]) ∧
    (get_stored_result wResult.hts_code
      ([] ++ [(wResult.hts_code, wCompact)])).isSome = true := by
  obtain ⟨h1, h2, res2, h3, _, _⟩ :=
    (c7_cache_roundtrip wResult [] wCompact).2.2 rfl rfl rfl
  exact ⟨h1, h2, by rw [h3]; rfl⟩

/-! ## Lexicographic range lemmas -/

theorem lexLe_refl : ∀ l : List Char, lexLe l l = true
  | [] => rfl
  | c :: cs => by
    simp only [lexLe]
    rw [if_neg (lt_irrefl c), if_pos trivial]
    exact lexLe_refl cs

theorem lexLe_cons_same (c : Char) (x y : List Char) :
    lexLe (c :: x) (c :: y) = lexLe x y := by
  simp only [lexLe]
  rw [if_neg (lt_irrefl c), if_pos trivial]

theorem lexLe_append : ∀ (u v a b : List Char), u.length = v.length →
    lexLe (u ++ a) (v ++ b) = if u = v then lexLe a b else lexLe u v
  | [], [], a, b, _ => by simp
  | [], _ :: _, _, _, h => by simp at h
  | _ :: _, [], _, _, h => by simp at h
  | x :: xs, y :: ys, a, b, h => by
    have hlen : xs.length = ys.length := by simpa using h
    rw [List.cons_append, List.cons_append]
    by_cases heq : x = y
    · subst heq
      rw [lexLe_cons_same, lexLe_append xs ys a b hlen]
      by_cases h2 : xs = ys
      · rw [if_pos h2, if_pos (by rw [h2])]
      · rw [if_neg h2,
          if_neg (fun hh => by injection hh with _ h3; exact h2 h3),
          lexLe_cons_same]
    · have hne : ¬ (x :: xs) = (y :: ys) := fun hh => by
        injection hh with h1 _
        exact heq h1
      rw [if_neg hne]
      by_cases hxy : x < y
      · simp only [lexLe]
        rw [if_pos hxy, if_pos hxy]
      · simp only [lexLe]
        rw [if_neg hxy, if_neg heq, if_neg hxy, if_neg heq]

theorem lexLe_replicate_zero : ∀ l : List Char, (∀ c ∈ l, '0' ≤ c) →
    lexLe (List.replicate l.length '0') l = true
  | [], _ => rfl
  | c :: cs, h => by
    rw [List.length_cons, List.replicate_succ]
    have hc : '0' ≤ c := h c (List.mem_cons_self _ _)
    rcases lt_or_eq_of_le hc with h1 | h1
    · simp only [lexLe]
      rw [if_pos h1]
    · rw [← h1, lexLe_cons_same]
      exact lexLe_replicate_zero cs (fun d hd => h d (List.mem_cons_of_mem _ hd))

theorem lexLe_replicate_nine : ∀ l : List Char, (∀ c ∈ l, c ≤ '9') →
    lexLe l (List.replicate l.length '9') = true
  | [], _ => rfl
  | c :: cs, h => by
    rw [List.length_cons, List.replicate_succ]
    have hc : c ≤ '9' := h c (List.mem_cons_self _ _)
    rcases lt_or_eq_of_le hc with h1 | h1
    · simp only [lexLe]
      rw [if_pos h1]
    · rw [h1, lexLe_cons_same]
      exact lexLe_replicate_nine cs (fun d hd => h d (List.mem_cons_of_mem _ hd))

theorem format10_decomp (a : List Char) (ha : a.length = 10) :
    formatHtsDigits a = a.take 4 ++ '.' :: ((a.drop 4).take 2 ++ '.' ::
      ((a.drop 6).take 2 ++ '.' :: (a.drop 8).take 2)) := by
  unfold formatHtsDigits
  rw [if_pos (by omega)]

theorem lexLe_format10 (a b : List Char) (ha : a.length = 10) (hb : b.length = 10) :
    lexLe (formatHtsDigits a) (formatHtsDigits b) = lexLe a b := by
  have dd6 : ∀ x : List Char, (x.drop 4).drop 2 = x.drop 6 := fun x => by
    rw [List.drop_drop]
  have dd8 : ∀ x : List Char, (x.drop 6).drop 2 = x.drop 8 := fun x => by
    rw [List.drop_drop]
  have e4 : lexLe (a.drop 8) (b.drop 8) =
      lexLe ((a.drop 8).take 2) ((b.drop 8).take 2) := by
    rw [List.take_of_length_le (by rw [List.length_drop, ha]),
        List.take_of_length_le (by rw [List.length_drop, hb])]
  have e3 : lexLe (a.drop 6) (b.drop 6) =
      (if (a.drop 6).take 2 = (b.drop 6).take 2 then lexLe (a.drop 8) (b.drop 8)
       else lexLe ((a.drop 6).take 2) ((b.drop 6).take 2)) := by
    conv_lhs => rw [← List.take_append_drop 2 (a.drop 6),
      ← List.take_append_drop 2 (b.drop 6)]
    rw [lexLe_append _ _ _ _ (by rw [List.length_take, List.length_take,
      List.length_drop, List.length_drop, ha, hb]), dd8 a, dd8 b]
  have e2 : lexLe (a.drop 4) (b.drop 4) =
      (if (a.drop 4).take 2 = (b.drop 4).take 2 then lexLe (a.drop 6) (b.drop 6)
       else lexLe ((a.drop 4).take 2) ((b.drop 4).take 2)) := by
    conv_lhs => rw [← List.take_append_drop 2 (a.drop 4),
      ← List.take_append_drop 2 (b.drop 4)]
    rw [lexLe_append _ _ _ _ (by rw [List.length_take, List.length_take,
      List.length_drop, List.length_drop, ha, hb]), dd6 a, dd6 b]
  have e1 : lexLe a b =
      (if a.take 4 = b.take 4 then lexLe (a.drop 4) (b.drop 4)
       else lexLe (a.take 4) (b.take 4)) := by
    conv_lhs => rw [← List.take_append_drop 4 a, ← List.take_append_drop 4 b]
    rw [lexLe_append _ _ _ _ (by rw [List.length_take, List.length_take, ha, hb])]
  rw [format10_decomp a ha, format10_decomp b hb,
      lexLe_append _ _ _ _ (by rw [List.length_take, List.length_take, ha, hb]),
      lexLe_cons_same,
      lexLe_append _ _ _ _ (by rw [List.length_take, List.length_take,
        List.length_drop, List.length_drop, ha, hb]),
      lexLe_cons_same,
      lexLe_append _ _ _ _ (by rw [List.length_take, List.length_take,
        List.length_drop, List.length_drop, ha, hb]),
      lexLe_cons_same,
      e1, e2, e3, e4]

/-- C5: for a canonically dotted prefix `p` and any full 10-digit dotted
code `c` whose digit string extends the prefix's digits,
`build_hts_range p` returns bounds that enclose `c` lexicographically —
the inclusive range covers every full code sharing the prefix. -/
theorem c5_range_covers_prefix (p c : String) (dc : List Char)
    (hc : c.data = formatHtsDigits dc)
    (hlen : dc.length = 10)
    (hdig : ∀ ch ∈ dc, '0' ≤ ch ∧ ch ≤ '9')
    (hpre : ((normalize_hts_input p).data.filter (fun ch => ch ≠ '.')) <+: dc)
    (hcanon : ((normalize_hts_input p).data.filter (fun ch => ch ≠ '.')).length ≥ 10 →
      (normalize_hts_input p).data =
        formatHtsDigits ((normalize_hts_input p).data.filter (fun ch => ch ≠ '.'))) :
    lexLe (build_hts_range p).1.data c.data = true ∧
    lexLe c.data (build_hts_range p).2.data = true := by
  set pd := (normalize_hts_input p).data.filter (fun ch => ch ≠ '.') with hpd
  obtain ⟨rest, hrest⟩ := hpre
  have hlr := congrArg List.length hrest
  rw [List.length_append] at hlr
  by_cases hge : pd.length ≥ 10
  · have hrest0 : rest = [] := by
      rw [← List.length_eq_zero]
      omega
    have hpdc : pd = dc := by rw [← hrest, hrest0, List.append_nil]
    have hb1 : (build_hts_range p).1.data = (normalize_hts_input p).data := by
      simp only [build_hts_range]
      rw [← hpd, if_pos hge]
    have hb2 : (build_hts_range p).2.data = (normalize_hts_input p).data := by
      simp only [build_hts_range]
      rw [← hpd, if_pos hge]
    constructor
    · rw [hb1, hcanon hge, hpdc, ← hc]
      exact lexLe_refl _
    · rw [hb2, hcanon hge, hpdc, ← hc]
      exact lexLe_refl _
  · have hrl : rest.length = 10 - pd.length := by omega
    have hb1 : (build_hts_range p).1.data =
        formatHtsDigits (pd ++ List.replicate (10 - pd.length) '0') := by
      simp only [build_hts_range]
      rw [← hpd, if_neg hge]
    have hb2 : (build_hts_range p).2.data =
        formatHtsDigits (pd ++ List.replicate (10 - pd.length) '9') := by
      simp only [build_hts_range]
      rw [← hpd, if_neg hge]
    have hlen1 : (pd ++ List.replicate (10 - pd.length) '0').length = 10 := by
      rw [List.length_append, List.length_replicate]
      omega
    have hlen9 : (pd ++ List.replicate (10 - pd.length) '9').length = 10 := by
      rw [List.length_append, List.length_replicate]
      omega
    have hlenc : (pd ++ rest).length = 10 := by
      rw [hrest]
      exact hlen
    constructor
    · rw [hb1, hc, ← hrest, lexLe_format10 _ _ hlen1 hlenc,
        lexLe_append pd pd _ _ rfl, if_pos rfl, ← hrl]
      exact lexLe_replicate_zero rest
        (fun d hd => (hdig d (by rw [← hrest]; exact List.mem_append_right _ hd)).1)
    · rw [hb2, hc, ← hrest, lexLe_format10 _ _ hlenc hlen9,
        lexLe_append pd pd _ _ rfl, if_pos rfl, ← hrl]
      exact lexLe_replicate_nine rest
        (fun d hd => (hdig d (by rw [← hrest]; exact List.mem_append_right _ hd)).2)

/-- C5 witness: the range of `"0901.21"` encloses `"0901.21.55.10"`. -/
theorem c5_range_covers_prefix_witness :
    lexLe (build_hts_range "0901.21").1.data ("0901.21.55.10" : String).data = true ∧
    lexLe ("0901.21.55.10" : String).data (build_hts_range "0901.21").2.data = true :=
  c5_range_covers_prefix "0901.21" "0901.21.55.10" ("0901215510" : String).data
    rfl rfl (by decide) ⟨("5510" : String).data, by decide⟩ (fun hh => absurd hh (by decide))

end TaxTaxi
